import Mathlib

set_option linter.unusedVariables false
set_option linter.unreachableTactic false
set_option linter.unusedTactic false
set_option linter.unnecessarySeqFocus false
set_option maxHeartbeats 1000000

/-!
# Verification of the grasshopper language server (document-sync / context-extraction core)

Shallow embedding of the Go sources:

* `internal/parser/treesitter.go` (package `position`): `PositionToOffset`
* `internal/analyzer/analyzer.go`: `ExtractContext`, `cleanImportText` and helpers
* `internal/ai/client.go`: `cleanSuggestions`
* `internal/server/server.go` / `handlers.go`: dispatch loop, lifecycle state,
  debounced reparse engine, completion handlers.

Go byte strings are modelled as `List Nat` (each element a byte value); Go `int`
indices that can be negative are modelled as `Int`.  The embedding is sequential:
each handler and each fired timer callback runs atomically, which matches the
lock discipline of the source (every read/write of shared state happens under
the corresponding mutex).  `bufio.Scanner`'s 64KiB maximum token size is
modelled: a newline-delimited segment of `maxScanTokenSize` bytes or more makes
the scan fail with the source's "error scanning content" return.
-/

namespace Grasshopper

/-! ## UTF-8 and UTF-16 primitives

`PositionToOffset` converts the target line to `[]rune` (Go UTF-8 decoding with
U+FFFD replacement for invalid bytes, consuming one byte per invalid step) and
measures runes in UTF-16 code units.  We model the decoder byte-for-byte after
Go's `unicode/utf8.DecodeRune`.
-/

/-- UTF-16 code units occupied by a code point (`1`, or `2` for a surrogate pair),
mirroring the `if r > 0xFFFF` test in `PositionToOffset`. -/
def utf16Size (r : Nat) : Nat :=
  if r > 0xFFFF then 2 else 1

/-- Total UTF-16 length of a list of code points (the `utf16CodeUnitCount` loop). -/
def utf16Len (rs : List Nat) : Nat :=
  (rs.map utf16Size).sum

/-- Byte size of the UTF-8 encoding of a code point (Go `utf8.RuneLen` on the
runes produced by decoding; decoded runes are always encodable). -/
def utf8RuneLen (r : Nat) : Nat :=
  if r < 0x80 then 1
  else if r < 0x800 then 2
  else if r < 0x10000 then 3
  else 4

/-- UTF-8 encoding of one Unicode scalar value. -/
def utf8EncodeRune (r : Nat) : List Nat :=
  if r < 0x80 then [r]
  else if r < 0x800 then [0xC0 + r / 0x40, 0x80 + r % 0x40]
  else if r < 0x10000 then
    [0xE0 + r / 0x1000, 0x80 + (r / 0x40) % 0x40, 0x80 + r % 0x40]
  else
    [0xF0 + r / 0x40000, 0x80 + (r / 0x1000) % 0x40, 0x80 + (r / 0x40) % 0x40,
     0x80 + r % 0x40]

/-- UTF-8 encoding of a sequence of code points. -/
def utf8Encode (rs : List Nat) : List Nat :=
  rs.flatMap utf8EncodeRune

/-- A Unicode scalar value: in range and not a surrogate. -/
def Scalar (r : Nat) : Prop :=
  r ≤ 0x10FFFF ∧ ¬ (0xD800 ≤ r ∧ r ≤ 0xDFFF)

instance (r : Nat) : Decidable (Scalar r) := by
  unfold Scalar; infer_instance

/-- Is `b` a UTF-8 continuation byte (`0x80..0xBF`)? -/
def isCont (b : Nat) : Prop := 0x80 ≤ b ∧ b ≤ 0xBF

instance (b : Nat) : Decidable (isCont b) :=
  inferInstanceAs (Decidable (0x80 ≤ b ∧ b ≤ 0xBF))

/-- Accepted ranges for the second byte of a three-byte sequence
(Go `utf8.acceptRanges`: second-byte window depends on the first byte, which
rejects overlong encodings and surrogates).  Stated as a disjunction over the
three first-byte cases `0xE0`, `0xED`, other. -/
def accept3 (b0 b1 : Nat) : Prop :=
  (b0 = 0xE0 ∧ 0xA0 ≤ b1 ∧ b1 ≤ 0xBF) ∨
  (b0 = 0xED ∧ 0x80 ≤ b1 ∧ b1 ≤ 0x9F) ∨
  (b0 ≠ 0xE0 ∧ b0 ≠ 0xED ∧ isCont b1)

instance (b0 b1 : Nat) : Decidable (accept3 b0 b1) :=
  inferInstanceAs (Decidable (_ ∨ _ ∨ _))

/-- Accepted ranges for the second byte of a four-byte sequence (first-byte
cases `0xF0`, `0xF4`, other). -/
def accept4 (b0 b1 : Nat) : Prop :=
  (b0 = 0xF0 ∧ 0x90 ≤ b1 ∧ b1 ≤ 0xBF) ∨
  (b0 = 0xF4 ∧ 0x80 ≤ b1 ∧ b1 ≤ 0x8F) ∨
  (b0 ≠ 0xF0 ∧ b0 ≠ 0xF4 ∧ isCont b1)

instance (b0 b1 : Nat) : Decidable (accept4 b0 b1) :=
  inferInstanceAs (Decidable (_ ∨ _ ∨ _))

/-- Decode one rune from byte `b0` followed by `rest`, returning the rune and the
unconsumed remainder.  Mirrors Go `utf8.DecodeRune`: any invalid or truncated
sequence yields U+FFFD and consumes exactly one byte. -/
def decodeFirst (b0 : Nat) (rest : List Nat) : Nat × List Nat :=
  if b0 < 0x80 then (b0, rest)
  else if 0xC2 ≤ b0 ∧ b0 ≤ 0xDF then
    match rest with
    | b1 :: r2 =>
      if isCont b1 then ((b0 % 0x20) * 0x40 + b1 % 0x40, r2)
      else (0xFFFD, b1 :: r2)
    | [] => (0xFFFD, [])
  else if 0xE0 ≤ b0 ∧ b0 ≤ 0xEF then
    match rest with
    | b1 :: b2 :: r3 =>
      if accept3 b0 b1 ∧ isCont b2 then
        ((b0 % 0x10) * 0x1000 + (b1 % 0x40) * 0x40 + b2 % 0x40, r3)
      else (0xFFFD, b1 :: b2 :: r3)
    | other => (0xFFFD, other)
  else if 0xF0 ≤ b0 ∧ b0 ≤ 0xF4 then
    match rest with
    | b1 :: b2 :: b3 :: r4 =>
      if accept4 b0 b1 ∧ isCont b2 ∧ isCont b3 then
        ((b0 % 0x8) * 0x40000 + (b1 % 0x40) * 0x1000 + (b2 % 0x40) * 0x40 + b3 % 0x40, r4)
      else (0xFFFD, b1 :: b2 :: b3 :: r4)
    | other => (0xFFFD, other)
  else (0xFFFD, rest)

theorem decodeFirst_length (b0 : Nat) (rest : List Nat) :
    (decodeFirst b0 rest).2.length ≤ rest.length := by
  unfold decodeFirst
  rcases rest with _ | ⟨b1, r1⟩
  · repeat' split
    all_goals try simp_all
    all_goals omega
  · rcases r1 with _ | ⟨b2, r2⟩
    · repeat' split
      all_goals try simp_all
      all_goals omega
    · rcases r2 with _ | ⟨b3, r3⟩
      · repeat' split
        all_goals try simp_all
        all_goals omega
      · repeat' split
        all_goals try simp_all
        all_goals omega

/-- Fuel-driven rune decoding loop; `decodeFirst_length` shows fuel equal to the
list length suffices. -/
def decodeRunesAux : Nat → List Nat → List Nat
  | 0, _ => []
  | _, [] => []
  | fuel + 1, b :: rest =>
    (decodeFirst b rest).1 :: decodeRunesAux fuel (decodeFirst b rest).2

/-- Decode a whole byte list into runes (Go `[]rune(string(lineBytes))`). -/
def decodeRunes (l : List Nat) : List Nat :=
  decodeRunesAux l.length l

/-! ## Line splitting (bufio.Scanner with ScanLines) -/

/-- Split a list at every occurrence of `sep` (the separators are dropped).
Always returns at least one (possibly empty) segment. -/
def splitSep (sep : Nat) : List Nat → List (List Nat)
  | [] => [[]]
  | b :: rest =>
    if b = sep then [] :: splitSep sep rest
    else
      match splitSep sep rest with
      | [] => [[b]]
      | seg :: segs => (b :: seg) :: segs

/-- Drop one trailing carriage return, as Go `bufio.dropCR` does for every token. -/
def dropCR (l : List Nat) : List Nat :=
  if l.getLast? = some 13 then l.dropLast else l

/-- Drop the trailing empty segment: `bufio.Scanner` yields no final empty token
when the input ends with a newline (and yields nothing on empty input). -/
def stripLastEmpty (segs : List (List Nat)) : List (List Nat) :=
  if segs.getLast? = some [] then segs.dropLast else segs

/-- `bufio.MaxScanTokenSize` (64 KiB): the largest token the default scanner
buffer can hold.  A newline-delimited segment of this length or more never fits
together with its delimiter, so `Scan` stops with `ErrTooLong`. -/
def maxScanTokenSize : Nat := 65536

/-- The newline-delimited segments `bufio.Scanner` (ScanLines split) attempts
to scan from `content`, before the per-token `dropCR`: the final empty segment
after a trailing newline is absent (and empty input yields no token).  Token
delivery and the `ErrTooLong` length check happen per segment in the scanner
loop (`ptoLoop`). -/
def scanSegments (content : List Nat) : List (List Nat) :=
  stripLastEmpty (splitSep 10 content)

/-! ## Position translator (`position.PositionToOffset`) -/

/-- LSP position: zero-based line and zero-based UTF-16 character
(`lsp.Position`, both Go `int`). -/
structure Position where
  line : Int
  character : Int
deriving Repr, DecidableEq

/-- The rune-consuming loop of `PositionToOffset`: starting from
`utf16CharCount = c16` and `runeOffsetBytes = bytes`, walk `runes` until the
requested UTF-16 column `target` is reached, never stepping past a rune whose
start would exceed it. -/
def runeScan (runes : List Nat) (target c16 bytes : Nat) : Nat :=
  match runes with
  | [] => bytes
  | r :: rest =>
    if c16 ≥ target then bytes
    else if c16 + utf16Size r > target then bytes
    else runeScan rest target (c16 + utf16Size r) (bytes + utf8RuneLen r)

/-- The scanner loop of `PositionToOffset` over the newline-delimited segments,
carrying the running `currentLine` and `byteOffset`; `contentLen` is
`len(content)`, returned when the requested line lies beyond the document.
Each iteration first attempts to scan the segment: one of length
`maxScanTokenSize` or more overflows the scanner buffer before its delimiter is
seen, `Scan` returns false with `ErrTooLong`, and the function surfaces
`scanner.Err()` as the "error scanning content" return.  A scanned token is
delivered with one trailing CR dropped (`scanner.Bytes()` after `dropCR`). -/
def ptoLoop (contentLen : Nat) (tLine tChar : Int) :
    List (List Nat) → Int → Nat → Except String Nat
  | [], currentLine, _ =>
    if currentLine ≤ tLine then .ok contentLen
    else .error "logic error: failed to find offset"
  | seg :: rest, currentLine, byteOffset =>
    if maxScanTokenSize ≤ seg.length then .error "error scanning content"
    else
      let lineBytes := dropCR seg
      if currentLine = tLine then
        if tChar < 0 then .error "invalid position: character is negative"
        else
          let lineRunes := decodeRunes lineBytes
          let u16 := utf16Len lineRunes
          if tChar > (u16 : Int) then .ok (byteOffset + lineBytes.length)
          else .ok (byteOffset + runeScan lineRunes tChar.toNat 0 0)
      else
        ptoLoop contentLen tLine tChar rest (currentLine + 1) (byteOffset + lineBytes.length + 1)

/-- `position.PositionToOffset`: convert an LSP position into a byte offset into
`content`.  Negative line errors immediately; a negative character errors only
when the target line is found; a segment of `maxScanTokenSize` bytes or more
reached before the target line errors with "error scanning content"; a line
beyond the document clamps to `len(content)`. -/
def PositionToOffset (content : List Nat) (pos : Position) : Except String Nat :=
  if pos.line < 0 then .error "invalid position: line is negative"
  else ptoLoop content.length pos.line pos.character (scanSegments content) 0 0

/-! ## Reference UTF-16-aware scanner (spec-modelled)

Modelled from the spec: the "reference UTF-16-aware line/column scanner" of
§8 against which the Position Translator is claimed to round-trip.  It is
defined directly over the document's code points: lines are the segments
between `\n` code points, a line's column `ch` maps to the byte length of the
longest rune prefix of the line whose UTF-16 length does not exceed `ch`
(clamping beyond line end to the line end), and a line beyond the document
clamps to the end of the document. -/

/-- Byte length of the UTF-8 encoding of a rune list. -/
def byteLenOf (rs : List Nat) : Nat :=
  (rs.map utf8RuneLen).sum

/-- Spec-modelled: byte offset within a line of the UTF-16 column `ch` — the
encoded length of the maximal rune prefix of UTF-16 length at most `ch`. -/
def specColOffset : List Nat → Nat → Nat
  | [], _ => 0
  | r :: rest, ch =>
    if utf16Size r ≤ ch then utf8RuneLen r + specColOffset rest (ch - utf16Size r)
    else 0

/-- Spec-modelled: walk the rune-level lines accumulating byte offsets; a line
index beyond the last line clamps to the end of the document. -/
def specRefLoop : List (List Nat) → Nat → Nat → Nat
  | [], _, _ => 0
  | l :: ls, 0, ch => specColOffset l ch
  | l :: ls, n + 1, ch =>
    if ls.isEmpty then byteLenOf l
    else byteLenOf l + 1 + specRefLoop ls n ch

/-- Spec-modelled reference scanner: byte offset of (line, UTF-16 column) in the
code-point document `rs`. -/
def specRefOffset (rs : List Nat) (line ch : Nat) : Nat :=
  specRefLoop (splitSep 10 rs) line ch

/-- Total encoded byte length of a rune-level line list rejoined with single
newlines (the length of the document the lines came from). -/
def sumBytes (T : List (List Nat)) : Nat :=
  (T.map byteLenOf).sum + (T.length - 1)

/-! ## Go string helpers (byte-level)

Go strings are byte slices; the `strings` package functions used by
`cleanImportText` and `cleanSuggestions` are modelled at byte level.  The
whitespace set is ASCII (space, `\t`, `\n`, `\v`, `\f`, `\r`) — the portion of
`unicode.IsSpace` relevant to source code. -/

/-- ASCII bytes of a (pure-ASCII) string literal. -/
def strB (s : String) : List Nat :=
  s.data.map Char.toNat

/-- Go `unicode.IsSpace`, restricted to ASCII whitespace bytes. -/
def isSpaceByte (b : Nat) : Bool :=
  b == 32 || b == 9 || b == 10 || b == 11 || b == 12 || b == 13

/-- Go `strings.TrimSpace` at byte level. -/
def goTrimSpace (l : List Nat) : List Nat :=
  ((l.dropWhile isSpaceByte).reverse.dropWhile isSpaceByte).reverse

/-- Go `strings.TrimPrefix`. -/
def goTrimPrefixB (s p : List Nat) : List Nat :=
  if p.isPrefixOf s then s.drop p.length else s

/-- Go `strings.TrimSuffix`. -/
def goTrimSuffixB (s p : List Nat) : List Nat :=
  if p.isSuffixOf s then s.take (s.length - p.length) else s

/-- Go `strings.Trim(s, "\x22")`: strip all leading and trailing quote bytes. -/
def trimQuotes (s : List Nat) : List Nat :=
  ((s.dropWhile (· == 34)).reverse.dropWhile (· == 34)).reverse

/-- Go `strings.Fields`: the maximal runs of non-whitespace bytes. -/
def fieldsB (s : List Nat) : List (List Nat) :=
  (s.splitOnP isSpaceByte).filter (· ≠ [])

/-- Go `strings.Join(xs, " ")`. -/
def joinSpace (xs : List (List Nat)) : List Nat :=
  List.intercalate [32] xs

/-- Go `strings.ReplaceAll(s, "\n", " ")` (single-byte pattern, hence a map). -/
def replaceNlSpace (s : List Nat) : List Nat :=
  s.map (fun b => if b = 10 then 32 else b)

/-- ASCII `strings.ToLower`. -/
def goToLowerB (s : List Nat) : List Nat :=
  s.map (fun b => if 65 ≤ b ∧ b ≤ 90 then b + 32 else b)

/-! ## Analyzer (`internal/analyzer/analyzer.go`) -/

/-- A concrete syntax tree node: kind string, byte span, named flag, children.
Models the relevant observations on `sitter.Node` / `sitter.Tree` (a tree is
identified with its root node). -/
inductive STree where
  | node (kind : String) (startB : Nat) (endB : Nat) (named : Bool)
      (children : List STree)

/-- Node kind (`node.Type()`). -/
def STree.kind : STree → String
  | .node k _ _ _ _ => k

/-- Node start byte (`node.StartByte()`). -/
def STree.startB : STree → Nat
  | .node _ s _ _ _ => s

/-- Node end byte (`node.EndByte()`). -/
def STree.endB : STree → Nat
  | .node _ _ e _ _ => e

/-- Is the node named? -/
def STree.named : STree → Bool
  | .node _ _ _ n _ => n

/-- Node children. -/
def STree.children : STree → List STree
  | .node _ _ _ _ c => c

/-- `analyzer.NodeInfo` (`Type` is a Lean keyword, rendered `Typ`). -/
structure NodeInfo where
  Typ : String
  Content : List Nat
  StartByte : Nat
  EndByte : Nat
deriving Repr, DecidableEq

/-- `analyzer.functionNodeTypes`, a flat lookup table keyed by language id. -/
def functionNodeTypes (lang : String) : List String :=
  if lang = "go" then ["function_declaration", "method_declaration"]
  else if lang = "python" then ["function_definition"]
  else if lang = "javascript" then
    ["function_declaration", "function_expression", "arrow_function", "method_definition"]
  else if lang = "typescript" then
    ["function_declaration", "function_expression", "arrow_function", "method_definition"]
  else if lang = "rust" then ["function_item", "function_signature_item", "impl_item"]
  else if lang = "java" then ["method_declaration", "constructor_declaration"]
  else []

/-- `analyzer.classNodeTypes`. -/
def classNodeTypes (lang : String) : List String :=
  if lang = "go" then ["type_spec", "struct_type"]
  else if lang = "python" then ["class_definition"]
  else if lang = "javascript" then ["class_declaration", "class_expression"]
  else if lang = "typescript" then
    ["class_declaration", "class_expression", "interface_declaration"]
  else if lang = "rust" then
    ["struct_item", "enum_item", "trait_item", "union_item", "impl_item"]
  else if lang = "java" then
    ["class_declaration", "interface_declaration", "enum_declaration"]
  else []

/-- `analyzer.importNodeTypes`; an absent key is rendered as the empty list
(the Go code guards with `languageHasImports && len(importTypes) > 0`). -/
def importNodeTypes (lang : String) : List String :=
  if lang = "go" then ["import_declaration", "import_spec"]
  else if lang = "python" then ["import_statement", "import_from_statement"]
  else if lang = "javascript" then ["import_statement"]
  else if lang = "typescript" then ["import_statement"]
  else if lang = "rust" then ["use_declaration", "extern_crate_declaration"]
  else if lang = "java" then ["import_declaration"]
  else []

/-- The Go slice `content[a:b]`. -/
def slice (l : List Nat) (a b : Nat) : List Nat :=
  (l.take b).drop a

/-- Sentinel returned by `getNodeText` on out-of-range node bounds. -/
def errBoundsText : List Nat :=
  strB "[error extracting text bounds]"

/-- `analyzer.getNodeText` for a non-nil node: slice the content by the node's
byte range, with a defensive bounds check. -/
def getNodeText (node : STree) (content : List Nat) : List Nat :=
  if node.startB > node.endB ∨ node.endB > content.length then errBoundsText
  else slice content node.startB node.endB

/-- `analyzer.findAncestorOfType`, with the chain of parents of the start node
given explicitly as a list `spine` (start node first, root last; `tree-sitter`
exposes it through `Parent()` pointers).  Returns the first node on the chain
whose kind is in `types`; `nil` start node is the empty spine. -/
def findAncestorOfType (spine : List STree) (types : List String) : Option STree :=
  if spine.isEmpty ∨ types.isEmpty then none
  else spine.find? (fun n => types.contains n.kind)

/-- Path from `t` down to the deepest node containing byte offset `off`
(deepest node first, `t` last).  Models descending through children as
`NamedDescendantForPointRange` does, at byte rather than (row, column)
granularity — `calculatePointFromOffset` and the point-based lookup of the
external tree-sitter API compose to exactly this on well-formed trees. -/
def descendPath : STree → Nat → List STree
  | .node k s e n cs, off =>
    match h : cs.find? (fun c => decide (c.startB ≤ off ∧ off ≤ c.endB)) with
    | some c => descendPath c off ++ [.node k s e n cs]
    | none => [.node k s e n cs]
termination_by t _ => sizeOf t
decreasing_by
  have hm := List.mem_of_find?_eq_some h
  have := List.sizeOf_lt_of_mem hm
  simp
  omega

/-- `rootNode.NamedDescendantForPointRange(point, point)` as a spine: the chain
from the deepest *named* node containing the offset up to the root. -/
def namedDescendantSpine (root : STree) (off : Nat) : List STree :=
  (descendPath root off).dropWhile (fun n => !n.named)

mutual

/-- Pre-order walk over all nodes, as the `TreeCursor`
first-child / next-sibling / parent loop of the import extraction visits them. -/
def preorder : STree → List STree
  | .node k s e n cs => .node k s e n cs :: preorderList cs

/-- Pre-order walk of a forest. -/
def preorderList : List STree → List STree
  | [] => []
  | t :: ts => preorder t ++ preorderList ts

end

/-- The final emptiness check of `cleanImportText`:
`if len(strings.Fields(cleaned)) == 0 { return "" }`. -/
def finalFieldsCheck (cleaned : List Nat) : List Nat :=
  if (fieldsB cleaned).length = 0 then [] else cleaned

/-- `analyzer.cleanImportText`: language-specific textual cleanup of an import
node's text. -/
def cleanImportText (importText : List Nat) (languageID : String) : List Nat :=
  let cleaned := goTrimSpace importText
  if languageID = "go" then
    let c1 := trimQuotes cleaned
    let c2 := goTrimPrefixB c1 (strB "import (")
    let c3 := goTrimPrefixB c2 (strB "import")
    let c4 := goTrimSuffixB c3 (strB ")")
    let c5 := goTrimSpace c4
    if c5.length = 0 ∨ c5 = strB "(" ∨ c5 = strB ")" then []
    else finalFieldsCheck c5
  else if languageID = "python" then
    finalFieldsCheck (joinSpace (fieldsB (replaceNlSpace cleaned)))
  else if languageID = "javascript" ∨ languageID = "typescript" then
    finalFieldsCheck (joinSpace (fieldsB (replaceNlSpace cleaned)))
  else if languageID = "rust" then
    finalFieldsCheck (goTrimSpace (goTrimSuffixB
      (goTrimPrefixB (goTrimPrefixB cleaned (strB "use ")) (strB "extern crate "))
      (strB ";")))
  else if languageID = "java" then
    finalFieldsCheck (goTrimSpace (goTrimPrefixB
      (goTrimSuffixB (goTrimPrefixB cleaned (strB "import ")) (strB ";"))
      (strB "static ")))
  else finalFieldsCheck cleaned

/-- The import-collection loop of `ExtractContext` section 6: walk the nodes in
cursor order, keep nodes of an import kind, clean their text, and append each
non-empty cleaned string the first time it is seen (`visitedImports` set). -/
def importLoop (content : List Nat) (languageID : String) (importTypes : List String) :
    List STree → List (List Nat) → List (List Nat) → List (List Nat)
  | [], acc, _ => acc
  | n :: rest, acc, visited =>
    if importTypes.contains n.kind then
      let cleanedImport := cleanImportText (getNodeText n content) languageID
      if cleanedImport ≠ [] ∧ ¬ visited.contains cleanedImport then
        importLoop content languageID importTypes rest (acc ++ [cleanedImport])
          (cleanedImport :: visited)
      else importLoop content languageID importTypes rest acc visited
    else importLoop content languageID importTypes rest acc visited

/-- Section 6 of `ExtractContext`: the de-duplicated ordered import list, empty
when the language has no configured import kinds. -/
def extractImports (content : List Nat) (languageID : String) (rootNode : STree) :
    List (List Nat) :=
  let importTypes := importNodeTypes languageID
  if importTypes.length > 0 then
    importLoop content languageID importTypes (preorder rootNode) [] []
  else []

/-- `analyzer.ContextInfo`.  String-typed fields hold byte lists; `CursorNode`
and `EnclosingNode` are optional as in the source. -/
structure ContextInfo where
  LanguageID : String
  Filename : String
  Prefix : List Nat
  Suffix : List Nat
  CurrentLinePrefix : List Nat
  CurrentLineSuffix : List Nat
  CursorNode : Option NodeInfo
  EnclosingNode : Option NodeInfo
  Imports : List (List Nat)
deriving Repr, DecidableEq

/-- `prefixContextBytes` — byte cap of the broader window before the current
line. -/
def prefixContextBytes : Nat := 2048

/-- `suffixContextBytes` — byte cap of the window after the current line. -/
def suffixContextBytes : Nat := 256

/-- The cursor-offset clamp at the top of `ExtractContext`. -/
def clampOffset (cursorByteOffset : Int) (contentLen : Nat) : Nat :=
  if cursorByteOffset < 0 then 0
  else if cursorByteOffset > (contentLen : Int) then contentLen
  else cursorByteOffset.toNat

/-- Backward scan for the start of the line containing offset `k`
(`for lineStartByte > 0 && content[lineStartByte-1] != '\n'`). -/
def lineStartByteOf (content : List Nat) : Nat → Nat
  | 0 => 0
  | k + 1 => if content.getD k 0 = 10 then k + 1 else lineStartByteOf content k

/-- Forward scan for the end of the line containing offset `k`
(`for lineEndByte < contentLen && content[lineEndByte] != '\n'`). -/
def lineEndByteOf (content : List Nat) (k : Nat) : Nat :=
  if k < content.length then
    if content.getD k 0 = 10 then k else lineEndByteOf content (k + 1)
  else k
termination_by content.length - k

/-- `NodeInfo` of a tree node. -/
def nodeInfoOf (n : STree) (content : List Nat) : NodeInfo :=
  { Typ := n.kind, Content := getNodeText n content,
    StartByte := n.startB, EndByte := n.endB }

/-- Body of `ExtractContext` after the nil-root check, at an already-clamped
cursor offset `c`. -/
def extractCore (content : List Nat) (rootNode : STree) (passedCursorSpine : List STree)
    (c : Nat) (languageID filename : String) : ContextInfo :=
  let contentLen := content.length
  -- 1. node at cursor (the handler-supplied node, else a fresh lookup)
  let cursorSpine :=
    if passedCursorSpine.isEmpty then namedDescendantSpine rootNode c
    else passedCursorSpine
  let cursorNodeInfo := (cursorSpine.head?).map (nodeInfoOf · content)
  -- 2. current line boundaries
  let lineStartByte := lineStartByteOf content c
  let lineEndByte := lineEndByteOf content c
  -- 3. current line split at the cursor, with the two defensive clamps
  let clpEnd0 := c
  let clpEnd1 := if clpEnd0 < lineStartByte then lineStartByte else clpEnd0
  let clpEnd := if clpEnd1 > lineEndByte then lineEndByte else clpEnd1
  let currentLinePre := if clpEnd > lineStartByte then slice content lineStartByte clpEnd else []
  let clsStart0 := c
  let clsStart1 := if clsStart0 < lineStartByte then lineStartByte else clsStart0
  let clsStart := if clsStart1 > lineEndByte then lineEndByte else clsStart1
  let currentLineSuf := if lineEndByte > clsStart then slice content clsStart lineEndByte else []
  -- 4. broader window before the current line (Nat subtraction models the < 0 clamp)
  let prefixStartByte := lineStartByte - prefixContextBytes
  let prefixEndByte := lineStartByte
  let pre := if prefixEndByte > prefixStartByte then slice content prefixStartByte prefixEndByte else []
  -- 5. broader window after the current line, skipping the line-break byte
  let suffixStartByte :=
    if lineEndByte < contentLen ∧ content.getD lineEndByte 0 = 10 then lineEndByte + 1
    else lineEndByte
  let suffixEndByte :=
    if suffixStartByte + suffixContextBytes > contentLen then contentLen
    else suffixStartByte + suffixContextBytes
  let suf := if suffixEndByte > suffixStartByte then slice content suffixStartByte suffixEndByte else []
  -- 6. imports
  let imports := extractImports content languageID rootNode
  -- 7. enclosing function/class block
  let searchSpine := if cursorSpine.isEmpty then namedDescendantSpine rootNode c else cursorSpine
  let enclosingTypes := functionNodeTypes languageID ++ classNodeTypes languageID
  let enclosing := (findAncestorOfType searchSpine enclosingTypes).map (nodeInfoOf · content)
  { LanguageID := languageID, Filename := filename,
    Prefix := pre, Suffix := suf,
    CurrentLinePrefix := currentLinePre, CurrentLineSuffix := currentLineSuf,
    CursorNode := cursorNodeInfo, EnclosingNode := enclosing, Imports := imports }

/-- `analyzer.ExtractContext`: fails exactly when the root node is nil,
otherwise clamps the cursor offset into `[0, len(content)]` and builds the
context record. -/
def ExtractContext (content : List Nat) (rootNode : Option STree)
    (passedCursorSpine : List STree) (cursorByteOffset : Int)
    (languageID filename : String) : Except String ContextInfo :=
  match rootNode with
  | none => .error "cannot extract context without root node"
  | some root =>
    .ok (extractCore content root passedCursorSpine
      (clampOffset cursorByteOffset content.length) languageID filename)

/-! ## AI client helpers (`internal/ai/client.go`) -/

/-- Index of the first newline byte (Go `strings.Index(cleaned, "\n")`). -/
def firstIndexOfNl : List Nat → Option Nat
  | [] => none
  | b :: rest => if b = 10 then some 0 else (firstIndexOfNl rest).map (· + 1)

/-- `ai.cleanSuggestions`: strip code fences and the `<END>` marker, trim
whitespace, then truncate at the first newline. -/
def cleanSuggestions (rawResponse : List Nat) (languageID : List Nat) : List Nat :=
  let langIDLower := goToLowerB languageID
  let c1 := goTrimPrefixB rawResponse (strB "```" ++ langIDLower)
  let c2 := goTrimPrefixB c1 (strB "```")
  let c3 := goTrimPrefixB c2 (strB "\n")
  let c4 := goTrimSuffixB c3 (strB "```")
  let c5 := goTrimSuffixB c4 (strB "<END>")
  let c6 := goTrimSpace c5
  match firstIndexOfNl c6 with
  | some i => c6.take i
  | none => c6

/-! ## Server (`internal/server/server.go`, `state.go`, `handlers.go`)

Sequential embedding: handlers and fired timer callbacks are atomic steps (all
shared state in the source is read and written under `stateMutex` /
`debounceTimersMutex`).  The maps are modelled as functions `String → Option _`
keyed by document URI.  External collaborators live inside the state: `parse`
is the syntax parse service (`parser.Manager.Parse`: returns the new tree, or
`none` for an unsupported language or a parse failure — both store a nil tree),
and `ai` is the optional completion backend (`GetSuggestion` outcome per
context).  `parseLog` is a ghost field recording each `(uri, content)` the
parse service was actually invoked on, used to observe reparses. -/

/-- `server.DocumentState`. -/
structure DocumentState where
  Text : List Nat
  Version : Int
  LanguageID : String
  Tree : Option STree

/-- One scheduled debounce timer: its identity (pointer equality in Go is
modelled by a unique id) and the `oldTree` captured by its callback closure. -/
structure TimerRec where
  id : Nat
  oldTree : Option STree

/-- Outcome of a `GetSuggestion` backend call. -/
inductive AIResult where
  | cancelled
  | failed
  | ok (text : List Nat)

/-- `server.Server` state (plus external collaborators and the ghost parse log). -/
structure ServerState where
  initialized : Bool
  shutdown : Bool
  documents : String → Option DocumentState
  debounceTimers : String → Option TimerRec
  nextTimerId : Nat
  parserPresent : Bool
  parse : String → List Nat → Option STree
  ai : Option (ContextInfo → AIResult)
  parseLog : List (String × List Nat)

/-- Point update of a URI-keyed map. -/
def upd {α : Type} (m : String → Option α) (k : String) (v : Option α) :
    String → Option α :=
  fun u => if u = k then v else m u

/-- Protocol message envelope plus the per-method parameter payloads the
modelled handlers read (untyped `params` in the source, decoded per method;
`paramsOk` is whether that decoding succeeds). -/
structure Msg where
  method : String
  id : Option Int
  paramsOk : Bool
  uri : String
  text : List Nat
  languageID : String
  version : Int
  changes : List (List Nat)
  pos : Position

/-- `server.parseDocument`: skip when the parser manager is nil, otherwise call
the parse service and store the resulting tree (nil on failure) into the
document, if it is still open. -/
def parseDocument (st : ServerState) (uri : String) (langID : String)
    (content : List Nat) (oldTree : Option STree) : ServerState :=
  if ¬ st.parserPresent then st
  else
    let newTree := st.parse langID content
    let st1 := { st with parseLog := st.parseLog ++ [(uri, content)] }
    match st1.documents uri with
    | some currentState =>
      { st1 with documents := upd st1.documents uri (some { currentState with Tree := newTree }) }
    | none => st1

/-- The staleness test of the completion handlers:
`docTree == nil || len(docTextBytes) != int(docTree.RootNode().EndByte())`. -/
def treeStale (text : List Nat) (tree : Option STree) : Bool :=
  match tree with
  | none => true
  | some t => text.length != t.endB

/-- Result of one dispatched handler: next state, the response ids written, and
(for completion handlers) the `(tree root end byte, text)` pair handed to
`analyzer.ExtractContext` — `none` when no context was built. -/
structure HandlerResult where
  state : ServerState
  responses : List Int
  served : Option (Nat × List Nat)

/-- `handleInitialize`. -/
def handleInitialize (st : ServerState) (m : Msg) : ServerState × List Int :=
  match m.id with
  | none => (st, [])
  | some i =>
    if st.initialized then (st, [i])
    else if ¬ m.paramsOk then (st, [i])
    else (st, [i])

/-- `handleInitialized`: the notification that flips the lifecycle flag. -/
def handleInitializedNote (st : ServerState) (m : Msg) : ServerState × List Int :=
  ({ st with initialized := true }, [])

/-- `handleShutdown`: sets the shutdown flag and acknowledges (one response
when the request has an id, also on a repeated shutdown). -/
def handleShutdown (st : ServerState) (m : Msg) : ServerState × List Int :=
  if st.shutdown then
    (st, match m.id with | some i => [i] | none => [])
  else
    ({ st with shutdown := true }, match m.id with | some i => [i] | none => [])

/-- `handleExit`: no state change; the Run loop reacts to the method itself. -/
def handleExitNote (st : ServerState) (m : Msg) : ServerState × List Int :=
  (st, [])

/-- `handleDidOpen`: store the document (tree nil) and parse immediately. -/
def handleDidOpen (st : ServerState) (m : Msg) : ServerState × List Int :=
  if ¬ st.initialized then (st, [])
  else if ¬ m.paramsOk then (st, [])
  else
    let newDocs := upd st.documents m.uri (some ⟨m.text, m.version, m.languageID, none⟩)
    let st1 := { st with documents := newDocs }
    (parseDocument st1 m.uri m.languageID m.text none, [])

/-- `handleDidSave`: nothing beyond the initialization guard. -/
def handleDidSave (st : ServerState) (m : Msg) : ServerState × List Int :=
  (st, [])

/-- `handleDidClose`: stop and drop any debounce timer, then drop the document. -/
def handleDidClose (st : ServerState) (m : Msg) : ServerState × List Int :=
  if ¬ st.initialized then (st, [])
  else if ¬ m.paramsOk then (st, [])
  else
    let st1 := { st with debounceTimers := upd st.debounceTimers m.uri none }
    match st1.documents m.uri with
    | some _ => ({ st1 with documents := upd st1.documents m.uri none }, [])
    | none => (st1, [])

/-- `handleDidChange`: apply the full text of the *last* content change, bump
the version, stop any pending timer and install a fresh one whose closure
captures the pre-change tree as incremental hint. -/
def handleDidChange (st : ServerState) (m : Msg) : ServerState × List Int :=
  if ¬ st.initialized then (st, [])
  else if ¬ m.paramsOk then (st, [])
  else
    match st.documents m.uri with
    | none => (st, [])
    | some currentState =>
      match m.changes.getLast? with
      | none => (st, [])
      | some newText =>
        let oldTree := currentState.Tree
        let newDocs := upd st.documents m.uri (some { currentState with Text := newText, Version := m.version })
        let st1 := { st with documents := newDocs }
        let newScheduledTimer : TimerRec := ⟨st1.nextTimerId, oldTree⟩
        ({ st1 with
            debounceTimers := upd st1.debounceTimers m.uri (some newScheduledTimer),
            nextTimerId := st1.nextTimerId + 1 }, [])

/-- The debounce timer callback of `handleDidChange`, fired for `uri` with its
own timer identity `myTimerId` and captured `oldTree`: skip parsing when the
document was closed, otherwise reparse the *current* text; in both cases remove
the timer-registry entry only if it is still this very timer. -/
def debounceCallback (st : ServerState) (uri : String) (myTimerId : Nat)
    (oldTree : Option STree) : ServerState :=
  match st.documents uri with
  | none =>
    match st.debounceTimers uri with
    | some currentTimerInMap =>
      if currentTimerInMap.id = myTimerId then
        { st with debounceTimers := upd st.debounceTimers uri none }
      else st
    | none => st
  | some finalState =>
    let st1 := parseDocument st uri finalState.LanguageID finalState.Text oldTree
    match st1.debounceTimers uri with
    | some currentTimerInMap =>
      if currentTimerInMap.id = myTimerId then
        { st1 with debounceTimers := upd st1.debounceTimers uri none }
      else st1
    | none => st1

/-- Let the timer currently registered for `uri` reach its deadline and run its
callback (earlier timers for the URI were stopped before firing, which is what
"changes arrive closer together than the debounce interval" means). -/
def fireTimer (st : ServerState) (uri : String) : ServerState :=
  match st.debounceTimers uri with
  | none => st
  | some t => debounceCallback st uri t.id t.oldTree

/-- Steps 1–5 shared by both completion handlers once a non-nil tree is in
hand: position conversion, cursor-node lookup, context extraction, backend
call, response formatting.  Every branch answers the request id exactly once;
`served` records the `(tree end byte, text)` pair given to `ExtractContext`. -/
def completionTail (st : ServerState) (i : Int) (uri : String) (langID : String)
    (tree : STree) (textBytes : List Nat) (pos : Position)
    (aiF : ContextInfo → AIResult) : HandlerResult :=
  match PositionToOffset textBytes pos with
  | .error _ => ⟨st, [i], none⟩
  | .ok byteOffset =>
    let cursorSpine := namedDescendantSpine tree byteOffset
    match ExtractContext textBytes (some tree) cursorSpine (byteOffset : Int) langID uri with
    | .error _ => ⟨st, [i], none⟩
    | .ok extractedContext =>
      let servedPair := some (tree.endB, textBytes)
      match aiF extractedContext with
      | .cancelled => ⟨st, [i], servedPair⟩
      | .failed => ⟨st, [i], servedPair⟩
      | .ok suggestion =>
        if suggestion.isEmpty then ⟨st, [i], servedPair⟩
        else ⟨st, [i], servedPair⟩

/-- `handleInlineCompletion`: nil-AI check first, then the stale-tree check
with synchronous reparse and state re-fetch. -/
def handleInlineCompletion (st : ServerState) (m : Msg) : HandlerResult :=
  if ¬ st.initialized then ⟨st, [], none⟩
  else
    match m.id with
    | none => ⟨st, [], none⟩
    | some i =>
      if ¬ m.paramsOk then ⟨st, [i], none⟩
      else
        match st.documents m.uri with
        | none => ⟨st, [i], none⟩
        | some docState =>
          let docTextBytes := docState.Text
          let docTree := docState.Tree
          let docLangID := docState.LanguageID
          match st.ai with
          | none => ⟨st, [i], none⟩
          | some aiF =>
            if treeStale docTextBytes docTree then
              let st1 := parseDocument st m.uri docLangID docTextBytes none
              match st1.documents m.uri with
              | none => ⟨st1, [i], none⟩
              | some doc1 =>
                match doc1.Tree with
                | none => ⟨st1, [i], none⟩
                | some tree1 => completionTail st1 i m.uri docLangID tree1 doc1.Text m.pos aiF
            else
              match docTree with
              | some tree0 => completionTail st i m.uri docLangID tree0 docTextBytes m.pos aiF
              | none => ⟨st, [i], none⟩

/-- `handleCompletion`: stale-tree check with synchronous reparse first, then
the nil-AI check. -/
def handleCompletion (st : ServerState) (m : Msg) : HandlerResult :=
  if ¬ st.initialized then ⟨st, [], none⟩
  else
    match m.id with
    | none => ⟨st, [], none⟩
    | some i =>
      if ¬ m.paramsOk then ⟨st, [i], none⟩
      else
        match st.documents m.uri with
        | none => ⟨st, [i], none⟩
        | some docState =>
          let docTextBytes := docState.Text
          let docTree := docState.Tree
          let docLangID := docState.LanguageID
          if treeStale docTextBytes docTree then
            let st1 := parseDocument st m.uri docLangID docTextBytes none
            match st1.documents m.uri with
            | none => ⟨st1, [i], none⟩
            | some doc1 =>
              match doc1.Tree with
              | none => ⟨st1, [i], none⟩
              | some tree1 =>
                match st1.ai with
                | none => ⟨st1, [i], none⟩
                | some aiF => completionTail st1 i m.uri docLangID tree1 doc1.Text m.pos aiF
          else
            match docTree with
            | some tree0 =>
              match st.ai with
              | none => ⟨st, [i], none⟩
              | some aiF => completionTail st i m.uri docLangID tree0 docTextBytes m.pos aiF
            | none => ⟨st, [], none⟩

/-- `server.handleMessage`: decode, dispatch by method, return the responses
written and whether the run loop must stop (`exit` only).  Unknown methods:
requests get a MethodNotFound error response, notifications are dropped. -/
def handleMessage (st : ServerState) (m : Msg) : ServerState × List Int × Bool :=
  if m.method = "initialize" then
    let r := handleInitialize st m; (r.1, r.2, false)
  else if m.method = "initialized" then
    let r := handleInitializedNote st m; (r.1, r.2, false)
  else if m.method = "shutdown" then
    let r := handleShutdown st m; (r.1, r.2, false)
  else if m.method = "exit" then
    let r := handleExitNote st m; (r.1, r.2, true)
  else if m.method = "textDocument/didOpen" then
    let r := handleDidOpen st m; (r.1, r.2, false)
  else if m.method = "textDocument/didChange" then
    let r := handleDidChange st m; (r.1, r.2, false)
  else if m.method = "textDocument/didSave" then
    let r := handleDidSave st m; (r.1, r.2, false)
  else if m.method = "textDocument/didClose" then
    let r := handleDidClose st m; (r.1, r.2, false)
  else if m.method = "textDocument/inlineCompletion" then
    let r := handleInlineCompletion st m; (r.state, r.responses, false)
  else if m.method = "textDocument/completion" then
    let r := handleCompletion st m; (r.state, r.responses, false)
  else if m.method = "$/cancelRequest" then (st, [], false)
  else if m.method = "$/setTrace" then (st, [], false)
  else
    match m.id with
    | some i => (st, [i], false)
    | none => (st, [], false)

/-- `server.Run`'s read loop over a stream of already-framed messages: dispatch
each in order until `handleMessage` signals the stop (the `exit`
notification).  Returns the final state, all response ids in order, and the
messages actually dispatched. -/
def runLoop (st : ServerState) : List Msg → ServerState × List Int × List Msg
  | [] => (st, [], [])
  | m :: rest =>
    let r := handleMessage st m
    if r.2.2 then (r.1, r.2.1, [m])
    else
      let rr := runLoop r.1 rest
      (rr.1, r.2.1 ++ rr.2.1, m :: rr.2.2)

/-! ## Characterization helpers

Spec-level companions used to state the claims about `ExtractContext`'s import
list (de-duplication keeping first occurrences) and about the reference
position scanner. -/

/-- Keep the first occurrence of each element, in order. -/
def firstSeenDedup : List (List Nat) → List (List Nat)
  | [] => []
  | x :: xs => x :: firstSeenDedup (xs.filter (fun y => y ≠ x))
termination_by l => l.length
decreasing_by
  have h := List.length_filter_le (fun y => decide (y ≠ seg)) segs
  simp only [List.length_cons]
  omega

/-- The cleaned, non-empty import candidates of a tree, in traversal order
(before de-duplication). -/
def importCandidates (content : List Nat) (lang : String) (root : STree) :
    List (List Nat) :=
  (((preorder root).filter (fun n => (importNodeTypes lang).contains n.kind)).map
    (fun n => cleanImportText (getNodeText n content) lang)).filter (fun s => s ≠ [])

/-- Total byte length of a line list when rejoined with single newlines
(measure used to relate the scanner loop to the whole content's length). -/
def lenWithNl (ls : List (List Nat)) : Nat :=
  (ls.map List.length).sum + (ls.length - 1)

/-! ## Example fixtures (used by witnesses and counterexamples) -/

/-- A parse service honouring the tree-sitter contract: a successful parse
returns a root spanning the whole input; unsupported languages yield nil. -/
def exParseFun : String → List Nat → Option STree :=
  fun lang content =>
    if lang = "go" then some (.node "source_file" 0 content.length true []) else none

/-- The state `NewServer` starts in: empty maps, not initialized. -/
def initialServerState : ServerState :=
  { initialized := false, shutdown := false, documents := fun _ => none,
    debounceTimers := fun _ => none, nextTimerId := 0, parserPresent := true,
    parse := exParseFun, ai := none, parseLog := [] }

/-- Baseline message fixture. -/
def exMsg0 : Msg :=
  { method := "", id := none, paramsOk := true, uri := "file:///a.go",
    text := [], languageID := "go", version := 1, changes := [], pos := ⟨0, 0⟩ }

/-- A completion request with id 1. -/
def exCompletionMsg : Msg :=
  { exMsg0 with method := "textDocument/completion", id := some 1 }

/-- An inline-completion request with id 2. -/
def exInlineMsg : Msg :=
  { exMsg0 with method := "textDocument/inlineCompletion", id := some 2 }

/-- An open document whose cached tree is stale (end byte 3, text length 4). -/
def exStaleDoc : DocumentState :=
  { Text := strB "abcd", Version := 1, LanguageID := "go",
    Tree := some (.node "source_file" 0 3 true []) }

/-- Initialized server holding `exStaleDoc`, with parser and backend configured. -/
def exStaleState : ServerState :=
  { initialized := true, shutdown := false,
    documents := fun u => if u = "file:///a.go" then some exStaleDoc else none,
    debounceTimers := fun _ => none, nextTimerId := 0, parserPresent := true,
    parse := exParseFun, ai := some (fun _ => .ok (strB "x")), parseLog := [] }

/-- Initialized server with no documents. -/
def exInitState : ServerState :=
  { initialServerState with initialized := true }

/-- Server with one registered debounce timer (id 5) and no open documents. -/
def exTimerState : ServerState :=
  { initialServerState with
      debounceTimers := fun u => if u = "file:///a.go" then some ⟨5, none⟩ else none }

/-- A didChange notification carrying one full-text content change. -/
def exChangeMsg1 : Msg :=
  { exMsg0 with method := "textDocument/didChange", changes := [strB "v1"] }

/-- A second didChange with different text. -/
def exChangeMsg2 : Msg :=
  { exMsg0 with method := "textDocument/didChange", changes := [strB "v2x"] }

/-- A 2049-byte single-line document (no newline byte). -/
def exLongLine : List Nat := List.replicate 2049 97

/-- Root node spanning `exLongLine`. -/
def exLongRoot : STree := .node "source_file" 0 2049 true []

/-- Content of a one-import Go file. -/
def exImpContent : List Nat := strB "import \x22fmt\x22"

/-- Tree of `exImpContent`: an `import_declaration` containing an `import_spec`. -/
def exImpRoot : STree :=
  .node "source_file" 0 12 true
    [.node "import_declaration" 0 12 true [.node "import_spec" 7 12 true []]]

/-! # Theorems -/

/-! ## C9 — cleaned suggestions are single lines -/

theorem firstIndexOfNl_take (l : List Nat) :
    ∀ i, firstIndexOfNl l = some i → 10 ∉ l.take i := by
  induction l with
  | nil => intro i h; simp [List.take]
  | cons b rest ih =>
    intro i h
    unfold firstIndexOfNl at h
    split at h
    · injection h with h
      subst h; simp
    · next hb =>
      cases hrec : firstIndexOfNl rest with
      | none => rw [hrec] at h; simp at h
      | some j =>
        rw [hrec] at h
        simp at h
        subst h
        simp only [List.take_succ_cons, List.mem_cons]
        push_neg
        exact ⟨fun hc => hb hc.symm, ih j hrec⟩

theorem firstIndexOfNl_none (l : List Nat) :
    firstIndexOfNl l = none → 10 ∉ l := by
  induction l with
  | nil => intro _; simp
  | cons b rest ih =>
    intro h
    unfold firstIndexOfNl at h
    split at h
    · exact Option.noConfusion h
    · next hb =>
      cases hrec : firstIndexOfNl rest with
      | none =>
        simp only [List.mem_cons]
        push_neg
        exact ⟨fun hc => hb hc.symm, ih hrec⟩
      | some j => rw [hrec] at h; simp at h

theorem truncateAtNl_no_nl (l : List Nat) :
    10 ∉ (match firstIndexOfNl l with | some i => l.take i | none => l) := by
  cases h : firstIndexOfNl l with
  | some i => exact firstIndexOfNl_take l i h
  | none => exact firstIndexOfNl_none l h

/-- C9: for every raw backend response and language id, the cleaned suggestion
returned by `cleanSuggestions` contains no newline byte — every completion item
delivered to the client is a single line. -/
theorem clean_suggestions_single_line (rawResponse languageID : List Nat) :
    10 ∉ cleanSuggestions rawResponse languageID := by
  unfold cleanSuggestions
  exact truncateAtNl_no_nl _

/-! ## C3 — debounce timer callback safety -/

theorem parseDocument_debounceTimers (st : ServerState) (uri langID : String)
    (content : List Nat) (oldTree : Option STree) :
    (parseDocument st uri langID content oldTree).debounceTimers = st.debounceTimers := by
  unfold parseDocument
  split
  · rfl
  · cases h : st.documents uri <;> simp [h]

theorem parseDocument_documents_closed (st : ServerState) (uri langID : String)
    (content : List Nat) (oldTree : Option STree)
    (hclosed : st.documents uri = none) :
    (parseDocument st uri langID content oldTree).documents = st.documents := by
  unfold parseDocument
  split
  · rfl
  · simp [hclosed]

/-- C3: a fired debounce callback removes the registry entry for its URI only
when that entry is still the very timer that fired — a newer registered timer
is left untouched (and entries for other URIs are never touched) — and a
callback firing after the document was closed mutates no document state. -/
theorem debounce_callback_registry_safety (st : ServerState) (uri : String)
    (myTimerId : Nat) (oldTree : Option STree) :
    (∀ tr, st.debounceTimers uri = some tr → tr.id ≠ myTimerId →
      (debounceCallback st uri myTimerId oldTree).debounceTimers uri = st.debounceTimers uri)
    ∧ (st.debounceTimers uri = none →
      (debounceCallback st uri myTimerId oldTree).debounceTimers uri = none)
    ∧ (∀ tr, st.debounceTimers uri = some tr → tr.id = myTimerId →
      (debounceCallback st uri myTimerId oldTree).debounceTimers uri = none)
    ∧ (∀ u, u ≠ uri →
      (debounceCallback st uri myTimerId oldTree).debounceTimers u = st.debounceTimers u)
    ∧ (st.documents uri = none →
      ∀ u, (debounceCallback st uri myTimerId oldTree).documents u = st.documents u) := by
  refine ⟨?_, ?_, ?_, ?_, ?_⟩
  · intro tr htr hne
    unfold debounceCallback
    cases hdoc : st.documents uri <;>
      simp [hdoc, htr, hne, parseDocument_debounceTimers, upd]
  · intro htim
    unfold debounceCallback
    cases hdoc : st.documents uri <;>
      simp [hdoc, htim, parseDocument_debounceTimers]
  · intro tr htr heq
    unfold debounceCallback
    cases hdoc : st.documents uri <;>
      simp [hdoc, htr, heq, parseDocument_debounceTimers, upd]
  · intro u hu
    unfold debounceCallback
    cases hdoc : st.documents uri <;>
      cases htr : st.debounceTimers uri <;>
        simp [hdoc, htr, hu, parseDocument_debounceTimers, upd] <;>
          split <;> simp [parseDocument_debounceTimers, upd, hu]
  · intro hdoc u
    unfold debounceCallback
    cases htr : st.debounceTimers uri <;> simp [hdoc, htr] <;> split <;> simp

/-- Witness for C3 at a concrete state: the registered timer (id 5) fires and
its entry is removed. -/
theorem debounce_callback_registry_safety_witness :
    exTimerState.debounceTimers "file:///a.go" = some ⟨5, none⟩
    ∧ (debounceCallback exTimerState "file:///a.go" 5 none).debounceTimers "file:///a.go" = none :=
  ⟨rfl, (debounce_callback_registry_safety exTimerState "file:///a.go" 5 none).2.2.1 ⟨5, none⟩ rfl rfl⟩

/-! ## C10 — ExtractContext error behaviour and cursor clamping -/

theorem extract_ok (content : List Nat) (root : STree) (spine : List STree)
    (off : Int) (lang fn : String) :
    ExtractContext content (some root) spine off lang fn =
      .ok (extractCore content root spine (clampOffset off content.length) lang fn) := rfl

/-- C10: `ExtractContext` returns an error exactly when the root node is nil;
for a non-nil root it always succeeds, and a cursor offset outside
`[0, len(content)]` produces the same result as the corresponding clamped
boundary offset. -/
theorem extract_context_error_iff_nil_root_and_clamps :
    (∀ content spine (off : Int) lang fn,
      ExtractContext content none spine off lang fn =
        .error "cannot extract context without root node")
    ∧ (∀ content root spine (off : Int) lang fn, ∃ ci,
      ExtractContext content (some root) spine off lang fn = .ok ci)
    ∧ (∀ content root spine (off : Int) lang fn, off < 0 →
      ExtractContext content (some root) spine off lang fn =
        ExtractContext content (some root) spine 0 lang fn)
    ∧ (∀ content root spine (off : Int) lang fn, (content.length : Int) < off →
      ExtractContext content (some root) spine off lang fn =
        ExtractContext content (some root) spine (content.length : Int) lang fn) := by
  refine ⟨fun _ _ _ _ _ => rfl, fun content root spine off lang fn => ⟨_, rfl⟩, ?_, ?_⟩
  · intro content root spine off lang fn hoff
    have hc : clampOffset off content.length = clampOffset 0 content.length := by
      unfold clampOffset
      rw [if_pos hoff, if_neg (by omega), if_neg (by omega)]
      simp
    rw [extract_ok, extract_ok, hc]
  · intro content root spine off lang fn hoff
    have hc : clampOffset off content.length =
        clampOffset (content.length : Int) content.length := by
      unfold clampOffset
      rw [if_neg (by omega), if_pos (by omega), if_neg (by omega), if_neg (by omega)]
      simp
    rw [extract_ok, extract_ok, hc]

/-- Witness for C10: a negative cursor offset behaves as offset 0. -/
theorem extract_context_error_iff_nil_root_and_clamps_witness :
    ExtractContext (strB "ab") (some (.node "source_file" 0 2 true [])) [] (-5) "go" "f"
      = ExtractContext (strB "ab") (some (.node "source_file" 0 2 true [])) [] 0 "go" "f" :=
  extract_context_error_iff_nil_root_and_clamps.2.2.1 (strB "ab")
    (.node "source_file" 0 2 true []) [] (-5) "go" "f" (by decide)

/-! ## C7 — shutdown does not stop the read loop; only exit does -/

theorem handleMessage_not_exit_stop (st : ServerState) (m : Msg)
    (hne : m.method ≠ "exit") :
    (handleMessage st m).2.2 = false := by
  unfold handleMessage
  by_cases h1 : m.method = "initialize"
  · rw [if_pos h1]
  · rw [if_neg h1]
    by_cases h2 : m.method = "initialized"
    · rw [if_pos h2]
    · rw [if_neg h2]
      by_cases h3 : m.method = "shutdown"
      · rw [if_pos h3]
      · rw [if_neg h3, if_neg hne]
        by_cases h5 : m.method = "textDocument/didOpen"
        · rw [if_pos h5]
        · rw [if_neg h5]
          by_cases h6 : m.method = "textDocument/didChange"
          · rw [if_pos h6]
          · rw [if_neg h6]
            by_cases h7 : m.method = "textDocument/didSave"
            · rw [if_pos h7]
            · rw [if_neg h7]
              by_cases h8 : m.method = "textDocument/didClose"
              · rw [if_pos h8]
              · rw [if_neg h8]
                by_cases h9 : m.method = "textDocument/inlineCompletion"
                · rw [if_pos h9]
                · rw [if_neg h9]
                  by_cases h10 : m.method = "textDocument/completion"
                  · rw [if_pos h10]
                  · rw [if_neg h10]
                    by_cases h11 : m.method = "$/cancelRequest"
                    · rw [if_pos h11]
                    · rw [if_neg h11]
                      by_cases h12 : m.method = "$/setTrace"
                      · rw [if_pos h12]
                      · rw [if_neg h12]
                        cases m.id <;> rfl

theorem handleMessage_stop_iff (st : ServerState) (m : Msg) :
    (handleMessage st m).2.2 = true ↔ m.method = "exit" := by
  constructor
  · intro h
    by_contra hne
    rw [handleMessage_not_exit_stop st m hne] at h
    exact Bool.false_ne_true h
  · intro h
    unfold handleMessage
    rw [h]
    simp

/-- C7: after a shutdown request the loop keeps dispatching — `handleMessage`
signals termination exactly for `exit`; the run loop dispatches every message
up to and including the first `exit` (in particular everything between a
shutdown and the exit); and a shutdown request with an id is acknowledged with
exactly one response (also when repeated). -/
theorem shutdown_then_exit_discipline (st : ServerState) (msgs : List Msg) (m : Msg) :
    ((handleMessage st m).2.2 = true ↔ m.method = "exit")
    ∧ (∀ i, m.method = "shutdown" → m.id = some i → (handleMessage st m).2.1 = [i])
    ∧ ((runLoop st msgs).2.2 =
        msgs.takeWhile (fun x => x.method != "exit")
          ++ (msgs.drop ((msgs.takeWhile (fun x => x.method != "exit")).length)).take 1) := by
  refine ⟨handleMessage_stop_iff st m, ?_, ?_⟩
  · intro i hm hid
    unfold handleMessage
    rw [hm]
    simp only [String.reduceEq, if_false, if_true, reduceIte]
    unfold handleShutdown
    split <;> simp [hid]
  · induction msgs generalizing st with
    | nil => simp [runLoop]
    | cons x rest ih =>
      by_cases hx : x.method = "exit"
      · have hstop : (handleMessage st x).2.2 = true := (handleMessage_stop_iff st x).2 hx
        have hpx : (x.method != "exit") = false := by simpa using hx
        unfold runLoop
        dsimp only
        rw [hstop]
        simp [hpx]
      · have hstop : (handleMessage st x).2.2 = false := handleMessage_not_exit_stop st x hx
        have hpx : (x.method != "exit") = true := by simpa using hx
        unfold runLoop
        dsimp only
        rw [hstop]
        simp only [Bool.false_eq_true, if_false, List.takeWhile_cons, hpx, if_true,
          List.length_cons, List.drop_succ_cons, List.cons_append]
        rw [ih (handleMessage st x).1]

/-- Witness for C7: shutdown, then a completion request, then exit — all three
are dispatched; the message after exit is not. -/
theorem shutdown_then_exit_discipline_witness :
    (handleMessage exInitState { exMsg0 with method := "shutdown", id := some 7 }).2.1 = [7]
    ∧ (runLoop exInitState [{ exMsg0 with method := "shutdown", id := some 7 },
        exCompletionMsg, { exMsg0 with method := "exit" }, exChangeMsg1]).2.2 =
      [{ exMsg0 with method := "shutdown", id := some 7 },
        exCompletionMsg, { exMsg0 with method := "exit" }] := by
  constructor
  · exact (shutdown_then_exit_discipline exInitState [] _).2.1 7 rfl rfl
  · rw [(shutdown_then_exit_discipline exInitState
      [{ exMsg0 with method := "shutdown", id := some 7 },
        exCompletionMsg, { exMsg0 with method := "exit" }, exChangeMsg1] exMsg0).2.2]
    rfl

/-! ## C2 — response discipline of the dispatcher -/

theorem completionTail_responses (st : ServerState) (i : Int) (uri langID : String)
    (tree : STree) (textBytes : List Nat) (pos : Position)
    (aiF : ContextInfo → AIResult) :
    (completionTail st i uri langID tree textBytes pos aiF).responses = [i] := by
  unfold completionTail
  repeat' (first | (dsimp only; split) | split)
  all_goals rfl

theorem handleCompletion_resp_shape (st : ServerState) (m : Msg) :
    (handleCompletion st m).responses = []
      ∨ ∃ i, m.id = some i ∧ (handleCompletion st m).responses = [i] := by
  unfold handleCompletion
  split
  · exact Or.inl rfl
  · cases hid : m.id with
    | none => exact Or.inl rfl
    | some i =>
      right
      refine ⟨i, rfl, ?_⟩
      repeat' (first | (dsimp only; split) | split)
      all_goals
        first
        | rfl
        | apply completionTail_responses
        | simp_all [treeStale]

theorem handleInlineCompletion_resp_shape (st : ServerState) (m : Msg) :
    (handleInlineCompletion st m).responses = []
      ∨ ∃ i, m.id = some i ∧ (handleInlineCompletion st m).responses = [i] := by
  unfold handleInlineCompletion
  split
  · exact Or.inl rfl
  · cases hid : m.id with
    | none => exact Or.inl rfl
    | some i =>
      right
      refine ⟨i, rfl, ?_⟩
      repeat' (first | (dsimp only; split) | split)
      all_goals
        first
        | rfl
        | apply completionTail_responses
        | simp_all [treeStale]

theorem handleInitialize_resp_shape (st : ServerState) (m : Msg) :
    (handleInitialize st m).2 = []
      ∨ ∃ i, m.id = some i ∧ (handleInitialize st m).2 = [i] := by
  unfold handleInitialize
  cases hid : m.id with
  | none => exact Or.inl rfl
  | some i =>
    right
    refine ⟨i, rfl, ?_⟩
    dsimp only
    split <;> try rfl
    split <;> rfl

theorem handleShutdown_resp_shape (st : ServerState) (m : Msg) :
    (handleShutdown st m).2 = []
      ∨ ∃ i, m.id = some i ∧ (handleShutdown st m).2 = [i] := by
  unfold handleShutdown
  cases hid : m.id with
  | none => split <;> exact Or.inl rfl
  | some i =>
    right
    refine ⟨i, rfl, ?_⟩
    dsimp only
    split <;> rfl

theorem handleDidOpen_resp (st : ServerState) (m : Msg) :
    (handleDidOpen st m).2 = [] := by
  unfold handleDidOpen
  repeat' (first | (dsimp only; split) | split)
  all_goals rfl

theorem handleDidChange_resp (st : ServerState) (m : Msg) :
    (handleDidChange st m).2 = [] := by
  unfold handleDidChange
  repeat' (first | (dsimp only; split) | split)
  all_goals rfl

theorem handleDidClose_resp (st : ServerState) (m : Msg) :
    (handleDidClose st m).2 = [] := by
  unfold handleDidClose
  repeat' (first | (dsimp only; split) | split)
  all_goals rfl

theorem resp_shape_sub {rs : List Int} {mid : Option Int}
    (h : rs = [] ∨ ∃ i, mid = some i ∧ rs = [i]) :
    rs.length ≤ 1 ∧ ∀ j ∈ rs, mid = some j := by
  rcases h with h | ⟨i, hmid, h⟩ <;> subst h <;> simp_all

theorem handleMessage_resp_sub (st : ServerState) (m : Msg) :
    (handleMessage st m).2.1.length ≤ 1
      ∧ ∀ j ∈ (handleMessage st m).2.1, m.id = some j := by
  unfold handleMessage
  by_cases h1 : m.method = "initialize"
  · rw [if_pos h1]; exact resp_shape_sub (handleInitialize_resp_shape st m)
  rw [if_neg h1]
  by_cases h2 : m.method = "initialized"
  · rw [if_pos h2]; simp [handleInitializedNote]
  rw [if_neg h2]
  by_cases h3 : m.method = "shutdown"
  · rw [if_pos h3]; exact resp_shape_sub (handleShutdown_resp_shape st m)
  rw [if_neg h3]
  by_cases h4 : m.method = "exit"
  · rw [if_pos h4]; simp [handleExitNote]
  rw [if_neg h4]
  by_cases h5 : m.method = "textDocument/didOpen"
  · rw [if_pos h5]; simp [handleDidOpen_resp]
  rw [if_neg h5]
  by_cases h6 : m.method = "textDocument/didChange"
  · rw [if_pos h6]; simp [handleDidChange_resp]
  rw [if_neg h6]
  by_cases h7 : m.method = "textDocument/didSave"
  · rw [if_pos h7]; simp [handleDidSave]
  rw [if_neg h7]
  by_cases h8 : m.method = "textDocument/didClose"
  · rw [if_pos h8]; simp [handleDidClose_resp]
  rw [if_neg h8]
  by_cases h9 : m.method = "textDocument/inlineCompletion"
  · rw [if_pos h9]; exact resp_shape_sub (handleInlineCompletion_resp_shape st m)
  rw [if_neg h9]
  by_cases h10 : m.method = "textDocument/completion"
  · rw [if_pos h10]; exact resp_shape_sub (handleCompletion_resp_shape st m)
  rw [if_neg h10]
  by_cases h11 : m.method = "$/cancelRequest"
  · rw [if_pos h11]; simp
  rw [if_neg h11]
  by_cases h12 : m.method = "$/setTrace"
  · rw [if_pos h12]; simp
  rw [if_neg h12]
  cases hid : m.id <;> simp [hid]

theorem handleCompletion_responses_init (st : ServerState) (m : Msg) (i : Int)
    (hinit : st.initialized = true) (hid : m.id = some i) :
    (handleCompletion st m).responses = [i] := by
  unfold handleCompletion
  rw [hid]
  split
  · next hni => exact absurd hinit hni
  · dsimp only
    repeat' (first | (dsimp only; split) | split)
    all_goals first | rfl | apply completionTail_responses | simp_all [treeStale]

theorem handleInlineCompletion_responses_init (st : ServerState) (m : Msg) (i : Int)
    (hinit : st.initialized = true) (hid : m.id = some i) :
    (handleInlineCompletion st m).responses = [i] := by
  unfold handleInlineCompletion
  rw [hid]
  split
  · next hni => exact absurd hinit hni
  · dsimp only
    repeat' (first | (dsimp only; split) | split)
    all_goals first | rfl | apply completionTail_responses | simp_all [treeStale]

/-- Counterexample to C2 as stated: a `textDocument/completion` request with
id 1, dispatched to its handler while the server is not yet initialized,
produces no response at all (the handler's error is only logged). -/
theorem request_before_init_no_response :
    exCompletionMsg.id = some 1
    ∧ (handleMessage initialServerState exCompletionMsg).2.1 = [] := by
  exact ⟨rfl, rfl⟩

/-- C2 (amended): every dispatched message produces *at most* one response and
any response carries that message's id; initialize and shutdown requests are
answered exactly once in every state, completion and inline-completion
requests are answered exactly once once the server is initialized, and
unknown-method requests are answered exactly once — but a request whose
handler's initialization guard fails produces no response. -/
theorem handle_message_response_discipline (st : ServerState) (m : Msg) :
    ((handleMessage st m).2.1.length ≤ 1
      ∧ ∀ j ∈ (handleMessage st m).2.1, m.id = some j)
    ∧ (∀ i, m.id = some i → (m.method = "initialize" ∨ m.method = "shutdown") →
        (handleMessage st m).2.1 = [i])
    ∧ (∀ i, m.id = some i → st.initialized = true →
        (m.method = "textDocument/completion" ∨ m.method = "textDocument/inlineCompletion") →
        (handleMessage st m).2.1 = [i])
    ∧ (∀ i, m.id = some i →
        m.method ∉ (["initialize", "initialized", "shutdown", "exit",
          "textDocument/didOpen", "textDocument/didChange", "textDocument/didSave",
          "textDocument/didClose", "textDocument/inlineCompletion",
          "textDocument/completion", "$/cancelRequest", "$/setTrace"] : List String) →
        (handleMessage st m).2.1 = [i]) := by
  refine ⟨handleMessage_resp_sub st m, ?_, ?_, ?_⟩
  · rintro i hid (hm | hm)
    · unfold handleMessage
      rw [hm]
      simp only [String.reduceEq, reduceIte]
      unfold handleInitialize
      rw [hid]
      dsimp only
      split <;> try rfl
      split <;> rfl
    · unfold handleMessage
      rw [hm]
      simp only [String.reduceEq, reduceIte]
      unfold handleShutdown
      rw [hid]
      dsimp only
      split <;> rfl
  · rintro i hid hinit (hm | hm)
    · unfold handleMessage
      rw [hm]
      simp only [String.reduceEq, reduceIte]
      exact handleCompletion_responses_init st m i hinit hid
    · unfold handleMessage
      rw [hm]
      simp only [String.reduceEq, reduceIte]
      exact handleInlineCompletion_responses_init st m i hinit hid
  · intro i hid hunk
    simp only [List.mem_cons, List.mem_singleton, not_or] at hunk
    obtain ⟨n1, n2, n3, n4, n5, n6, n7, n8, n9, n10, n11, hrest⟩ := hunk
    have n12 : m.method ≠ "$/setTrace" := by simpa using hrest
    unfold handleMessage
    rw [if_neg n1, if_neg n2, if_neg n3, if_neg n4, if_neg n5, if_neg n6, if_neg n7,
      if_neg n8, if_neg n9, if_neg n10, if_neg n11, if_neg n12, hid]

/-- Witness for C2 (amended): on an initialized server a completion request
with id 1 is answered exactly once. -/
theorem handle_message_response_discipline_witness :
    exInitState.initialized = true
    ∧ (handleMessage exInitState exCompletionMsg).2.1 = [1] :=
  ⟨rfl, (handle_message_response_discipline exInitState exCompletionMsg).2.2.1 1 rfl rfl
    (Or.inl rfl)⟩

/-! ## C1 — completions are never served against a stale tree -/

theorem parseDocument_props (st : ServerState) (uri langID : String)
    (content : List Nat) (oldTree : Option STree) (hpp : st.parserPresent = true) :
    (parseDocument st uri langID content oldTree).parseLog = st.parseLog ++ [(uri, content)]
    ∧ (∀ doc, st.documents uri = some doc →
        (parseDocument st uri langID content oldTree).documents uri =
          some { doc with Tree := st.parse langID content })
    ∧ (parseDocument st uri langID content oldTree).ai = st.ai := by
  unfold parseDocument
  rw [if_neg (by simp [hpp])]
  refine ⟨?_, ?_, ?_⟩
  · cases h : st.documents uri <;> simp [h]
  · intro doc hdoc
    simp [hdoc, upd]
  · cases h : st.documents uri <;> simp [h]

theorem completionTail_state (st : ServerState) (i : Int) (uri langID : String)
    (tree : STree) (textBytes : List Nat) (pos : Position)
    (aiF : ContextInfo → AIResult) :
    (completionTail st i uri langID tree textBytes pos aiF).state = st := by
  unfold completionTail
  repeat' (first | (dsimp only; split) | split)
  all_goals rfl

theorem completionTail_served (st : ServerState) (i : Int) (uri langID : String)
    (tree : STree) (textBytes : List Nat) (pos : Position)
    (aiF : ContextInfo → AIResult) :
    (completionTail st i uri langID tree textBytes pos aiF).served = none
      ∨ (completionTail st i uri langID tree textBytes pos aiF).served =
          some (tree.endB, textBytes) := by
  unfold completionTail
  repeat' (first | (dsimp only; split) | split)
  all_goals simp

theorem handleCompletion_served_fresh (st : ServerState) (m : Msg)
    (hpp : st.parserPresent = true)
    (hparse : ∀ lang content t, st.parse lang content = some t → t.endB = content.length) :
    ∀ e txt, (handleCompletion st m).served = some (e, txt) → e = txt.length := by
  intro e txt
  unfold handleCompletion
  split
  · intro h; simp at h
  · cases hid : m.id with
    | none => intro h; simp at h
    | some i =>
      dsimp only
      split
      · intro h; simp at h
      · cases hdoc : st.documents m.uri with
        | none => intro h; simp at h
        | some docState =>
          dsimp only
          split
          · -- stale: synchronous reparse, then re-fetch
            have hpd := (parseDocument_props st m.uri docState.LanguageID docState.Text
              none hpp).2.1 docState hdoc
            cases hdoc1 : (parseDocument st m.uri docState.LanguageID docState.Text
                none).documents m.uri with
            | none => intro h; simp at h
            | some doc1 =>
              dsimp only
              rw [hpd] at hdoc1
              injection hdoc1 with hdoc1
              cases htree : doc1.Tree with
              | none => intro h; simp at h
              | some tree1 =>
                dsimp only
                cases hai : (parseDocument st m.uri docState.LanguageID docState.Text
                    none).ai with
                | none => intro h; simp at h
                | some aiF =>
                  dsimp only
                  rcases completionTail_served (parseDocument st m.uri docState.LanguageID
                      docState.Text none) i m.uri docState.LanguageID tree1 doc1.Text m.pos
                      aiF with h | h
                  · intro h2; rw [h] at h2; exact Option.noConfusion h2
                  · intro h2
                    rw [h] at h2
                    injection h2 with h2
                    obtain ⟨he, ht⟩ := Prod.mk.injEq .. |>.mp h2
                    subst he ht
                    have htp : st.parse docState.LanguageID docState.Text = some tree1 := by
                      rw [← htree, ← hdoc1]
                    have hend := hparse _ _ _ htp
                    have htxt : doc1.Text = docState.Text := by rw [← hdoc1]
                    rw [hend, htxt]
          · -- fresh: the cached tree already matches the text
            next hstale =>
            cases htree : docState.Tree with
            | none => intro h; simp at h
            | some tree0 =>
              dsimp only
              cases hai : st.ai with
              | none => intro h; simp at h
              | some aiF =>
                dsimp only
                rcases completionTail_served st i m.uri docState.LanguageID tree0
                    docState.Text m.pos aiF with h | h
                · intro h2; rw [h] at h2; exact Option.noConfusion h2
                · intro h2
                  rw [h] at h2
                  injection h2 with h2
                  obtain ⟨he, ht⟩ := Prod.mk.injEq .. |>.mp h2
                  subst he ht
                  rw [htree] at hstale
                  simp [treeStale] at hstale
                  rw [hstale]

theorem handleInlineCompletion_served_fresh (st : ServerState) (m : Msg)
    (hpp : st.parserPresent = true)
    (hparse : ∀ lang content t, st.parse lang content = some t → t.endB = content.length) :
    ∀ e txt, (handleInlineCompletion st m).served = some (e, txt) → e = txt.length := by
  intro e txt
  unfold handleInlineCompletion
  split
  · intro h; simp at h
  · cases hid : m.id with
    | none => intro h; simp at h
    | some i =>
      dsimp only
      split
      · intro h; simp at h
      · cases hdoc : st.documents m.uri with
        | none => intro h; simp at h
        | some docState =>
          dsimp only
          cases hai : st.ai with
          | none => intro h; simp at h
          | some aiF =>
            dsimp only
            split
            · have hpd := (parseDocument_props st m.uri docState.LanguageID docState.Text
                none hpp).2.1 docState hdoc
              cases hdoc1 : (parseDocument st m.uri docState.LanguageID docState.Text
                  none).documents m.uri with
              | none => intro h; simp at h
              | some doc1 =>
                dsimp only
                rw [hpd] at hdoc1
                injection hdoc1 with hdoc1
                cases htree : doc1.Tree with
                | none => intro h; simp at h
                | some tree1 =>
                  dsimp only
                  rcases completionTail_served (parseDocument st m.uri docState.LanguageID
                      docState.Text none) i m.uri docState.LanguageID tree1 doc1.Text m.pos
                      aiF with h | h
                  · intro h2; rw [h] at h2; exact Option.noConfusion h2
                  · intro h2
                    rw [h] at h2
                    injection h2 with h2
                    obtain ⟨he, ht⟩ := Prod.mk.injEq .. |>.mp h2
                    subst he ht
                    have htp : st.parse docState.LanguageID docState.Text = some tree1 := by
                      rw [← htree, ← hdoc1]
                    have hend := hparse _ _ _ htp
                    have htxt : doc1.Text = docState.Text := by rw [← hdoc1]
                    rw [hend, htxt]
            · next hstale =>
              cases htree : docState.Tree with
              | none => intro h; simp at h
              | some tree0 =>
                dsimp only
                rcases completionTail_served st i m.uri docState.LanguageID tree0
                    docState.Text m.pos aiF with h | h
                · intro h2; rw [h] at h2; exact Option.noConfusion h2
                · intro h2
                  rw [h] at h2
                  injection h2 with h2
                  obtain ⟨he, ht⟩ := Prod.mk.injEq .. |>.mp h2
                  subst he ht
                  rw [htree] at hstale
                  simp [treeStale] at hstale
                  rw [hstale]

theorem handleCompletion_stale_reparses (st : ServerState) (m : Msg)
    (hpp : st.parserPresent = true) :
    ∀ doc, st.documents m.uri = some doc → treeStale doc.Text doc.Tree = true →
      (handleCompletion st m).served ≠ none →
      (handleCompletion st m).state.parseLog = st.parseLog ++ [(m.uri, doc.Text)] := by
  intro doc hdoc hstale
  unfold handleCompletion
  split
  · intro h; simp at h
  · cases hid : m.id with
    | none => intro h; simp at h
    | some i =>
      dsimp only
      split
      · intro h; simp at h
      · rw [hdoc]
        dsimp only
        split
        · cases hdoc1 : (parseDocument st m.uri doc.LanguageID doc.Text
              none).documents m.uri with
          | none => intro h; simp at h
          | some doc1 =>
            dsimp only
            cases htree : doc1.Tree with
            | none => intro h; simp at h
            | some tree1 =>
              dsimp only
              cases hai : (parseDocument st m.uri doc.LanguageID doc.Text none).ai with
              | none => intro h; simp at h
              | some aiF =>
                dsimp only
                intro _
                rw [completionTail_state]
                exact (parseDocument_props st m.uri doc.LanguageID doc.Text none hpp).1
        · next hns => exact absurd hstale hns

theorem handleInlineCompletion_stale_reparses (st : ServerState) (m : Msg)
    (hpp : st.parserPresent = true) :
    ∀ doc, st.documents m.uri = some doc → treeStale doc.Text doc.Tree = true →
      (handleInlineCompletion st m).served ≠ none →
      (handleInlineCompletion st m).state.parseLog = st.parseLog ++ [(m.uri, doc.Text)] := by
  intro doc hdoc hstale
  unfold handleInlineCompletion
  split
  · intro h; simp at h
  · cases hid : m.id with
    | none => intro h; simp at h
    | some i =>
      dsimp only
      split
      · intro h; simp at h
      · rw [hdoc]
        dsimp only
        cases hai : st.ai with
        | none => intro h; simp at h
        | some aiF =>
          dsimp only
          split
          · cases hdoc1 : (parseDocument st m.uri doc.LanguageID doc.Text
                none).documents m.uri with
            | none => intro h; simp at h
            | some doc1 =>
              dsimp only
              cases htree : doc1.Tree with
              | none => intro h; simp at h
              | some tree1 =>
                dsimp only
                intro _
                rw [completionTail_state]
                exact (parseDocument_props st m.uri doc.LanguageID doc.Text none hpp).1
          · next hns => exact absurd hstale hns

/-- C1: with the parser manager present and the parse service honouring the
tree-sitter contract (a returned tree spans the whole parsed text), both
completion handlers (a) synchronously reparse the current text before any
context is built whenever the cached tree is nil or its root end byte differs
from the current text length, and (b) only hand `ExtractContext` a tree whose
root end byte equals the length of the very text the context is built from. -/
theorem completion_never_served_stale (st : ServerState) (m : Msg)
    (hpp : st.parserPresent = true)
    (hparse : ∀ lang content t, st.parse lang content = some t → t.endB = content.length) :
    (∀ e txt, (handleCompletion st m).served = some (e, txt) → e = txt.length)
    ∧ (∀ e txt, (handleInlineCompletion st m).served = some (e, txt) → e = txt.length)
    ∧ (∀ doc, st.documents m.uri = some doc → treeStale doc.Text doc.Tree = true →
        (handleCompletion st m).served ≠ none →
        (handleCompletion st m).state.parseLog = st.parseLog ++ [(m.uri, doc.Text)])
    ∧ (∀ doc, st.documents m.uri = some doc → treeStale doc.Text doc.Tree = true →
        (handleInlineCompletion st m).served ≠ none →
        (handleInlineCompletion st m).state.parseLog = st.parseLog ++ [(m.uri, doc.Text)]) :=
  ⟨handleCompletion_served_fresh st m hpp hparse,
    handleInlineCompletion_served_fresh st m hpp hparse,
    handleCompletion_stale_reparses st m hpp,
    handleInlineCompletion_stale_reparses st m hpp⟩

/-- Witness for C1: a concrete stale document (tree end byte 3, text length 4)
is reparsed and the served pair has matching end byte and text. -/
theorem completion_never_served_stale_witness :
    (handleCompletion exStaleState exCompletionMsg).served = some (4, strB "abcd")
    ∧ (4 : Nat) = (strB "abcd").length :=
  ⟨by decide,
    (completion_never_served_stale exStaleState exCompletionMsg rfl
      (by
        intro lang content t h
        have h2 : exParseFun lang content = some t := h
        unfold exParseFun at h2
        split at h2
        · injection h2 with h2
          rw [← h2]
          rfl
        · exact Option.noConfusion h2)).1 4 (strB "abcd") (by decide)⟩

/-! ## C5 — a burst of didChange notifications yields one reparse of the last text -/

theorem handleDidChange_step (st : ServerState) (m : Msg) (doc : DocumentState)
    (newText : List Nat)
    (hinit : st.initialized = true) (hok : m.paramsOk = true)
    (hdoc : st.documents m.uri = some doc) (hch : m.changes.getLast? = some newText) :
    (handleDidChange st m).1 = { st with
      documents := upd st.documents m.uri (some { doc with Text := newText, Version := m.version }),
      debounceTimers := upd st.debounceTimers m.uri (some ⟨st.nextTimerId, doc.Tree⟩),
      nextTimerId := st.nextTimerId + 1 } := by
  unfold handleDidChange
  rw [if_neg (by simp [hinit]), if_neg (by simp [hok]), hdoc]
  dsimp only
  rw [hch]

theorem didChange_fold_inv (msgs : List Msg) :
    ∀ (st0 : ServerState) (uri : String) (doc0 : DocumentState),
    st0.initialized = true → st0.documents uri = some doc0 → st0.parserPresent = true →
    (∀ m ∈ msgs, m.uri = uri ∧ m.paramsOk = true ∧ m.changes ≠ []) →
    (msgs.foldl (fun s mm => (handleDidChange s mm).1) st0).initialized = true
    ∧ (msgs.foldl (fun s mm => (handleDidChange s mm).1) st0).parserPresent = true
    ∧ (msgs.foldl (fun s mm => (handleDidChange s mm).1) st0).parseLog = st0.parseLog
    ∧ (msgs ≠ [] → ∃ tr, (msgs.foldl (fun s mm => (handleDidChange s mm).1) st0).debounceTimers uri = some tr)
    ∧ ∃ doc1, (msgs.foldl (fun s mm => (handleDidChange s mm).1) st0).documents uri = some doc1
        ∧ (msgs = [] → doc1 = doc0)
        ∧ (∀ mlast tlast, msgs.getLast? = some mlast →
            mlast.changes.getLast? = some tlast → doc1.Text = tlast) := by
  induction msgs with
  | nil =>
    intro st0 uri doc0 hinit hdoc hpp hwf
    refine ⟨hinit, hpp, rfl, by simp, doc0, hdoc, fun _ => rfl, ?_⟩
    intro mlast tlast hml
    simp at hml
  | cons m rest ih =>
    intro st0 uri doc0 hinit hdoc hpp hwf
    obtain ⟨hmu, hmok, hmch⟩ := hwf m (List.mem_cons_self m rest)
    obtain ⟨newText, hch⟩ : ∃ t, m.changes.getLast? = some t :=
      Option.isSome_iff_exists.mp (List.getLast?_isSome.mpr hmch)
    have hstep := handleDidChange_step st0 m doc0 newText hinit hmok (hmu ▸ hdoc) hch
    set st1 := (handleDidChange st0 m).1 with hst1
    have hdoc1 : st1.documents uri = some { doc0 with Text := newText, Version := m.version } := by
      rw [hstep]
      simp [upd, hmu]
    have hinit1 : st1.initialized = true := by rw [hstep]; exact hinit
    have hpp1 : st1.parserPresent = true := by rw [hstep]; exact hpp
    have hlog1 : st1.parseLog = st0.parseLog := by rw [hstep]
    have htim1 : st1.debounceTimers uri = some ⟨st0.nextTimerId, doc0.Tree⟩ := by
      rw [hstep]
      simp [upd, hmu]
    have hwfr : ∀ mm ∈ rest, mm.uri = uri ∧ mm.paramsOk = true ∧ mm.changes ≠ [] :=
      fun mm hm => hwf mm (List.mem_cons_of_mem m hm)
    obtain ⟨ih1, ih2, ih3, ih4, doc2, ihdoc, ihnil, ihlast⟩ :=
      ih st1 uri { doc0 with Text := newText, Version := m.version } hinit1 hdoc1 hpp1 hwfr
    have hfold : (m :: rest).foldl (fun s mm => (handleDidChange s mm).1) st0 =
        rest.foldl (fun s mm => (handleDidChange s mm).1) st1 := by
      rw [List.foldl_cons]
    rw [hfold]
    refine ⟨ih1, ih2, ih3.trans hlog1, fun _ => ?_, doc2, ihdoc, by simp, ?_⟩
    · rcases rest with _ | ⟨r, rs⟩
      · exact ⟨⟨st0.nextTimerId, doc0.Tree⟩, htim1⟩
      · exact ih4 (by simp)
    · intro mlast tlast hml htl
      rcases rest with _ | ⟨r, rs⟩
      · simp only [List.getLast?_singleton, Option.some.injEq] at hml
        subst hml
        rw [hch] at htl
        injection htl with htl
        have hd2 : doc2 = { doc0 with Text := newText, Version := m.version } := ihnil rfl
        rw [hd2]
        exact htl
      · refine ihlast mlast tlast ?_ htl
        rw [List.getLast?_cons_cons] at hml
        exact hml

theorem debounceCallback_parseLog_open (st : ServerState) (uri : String)
    (tid : Nat) (ot : Option STree) (doc : DocumentState)
    (hdoc : st.documents uri = some doc) (hpp : st.parserPresent = true) :
    (debounceCallback st uri tid ot).parseLog = st.parseLog ++ [(uri, doc.Text)] := by
  unfold debounceCallback
  rw [hdoc]
  dsimp only
  cases h : (parseDocument st uri doc.LanguageID doc.Text ot).debounceTimers uri with
  | none => exact (parseDocument_props st uri doc.LanguageID doc.Text ot hpp).1
  | some tr =>
    dsimp only
    split
    · exact (parseDocument_props st uri doc.LanguageID doc.Text ot hpp).1
    · exact (parseDocument_props st uri doc.LanguageID doc.Text ot hpp).1

/-- C5: for a burst of didChange notifications on one URI arriving within the
debounce window (so that each notification stops the previous timer before it
can fire), no reparse runs during the burst, and the single timer that fires
afterwards performs exactly one reparse — of the text applied by the *last*
notification, read from the store at fire time. -/
theorem debounce_burst_single_reparse (st0 : ServerState) (uri : String)
    (doc0 : DocumentState) (msgs : List Msg)
    (hinit : st0.initialized = true)
    (hopen : st0.documents uri = some doc0)
    (hpp : st0.parserPresent = true)
    (hwf : ∀ m ∈ msgs, m.uri = uri ∧ m.paramsOk = true ∧ m.changes ≠ []) :
    ∀ mlast tlast, msgs.getLast? = some mlast → mlast.changes.getLast? = some tlast →
      (msgs.foldl (fun s mm => (handleDidChange s mm).1) st0).parseLog = st0.parseLog
      ∧ (fireTimer (msgs.foldl (fun s mm => (handleDidChange s mm).1) st0) uri).parseLog
          = st0.parseLog ++ [(uri, tlast)] := by
  intro mlast tlast hml htl
  obtain ⟨h1, h2, h3, h4, doc1, hdoc1, hnil, hlast⟩ :=
    didChange_fold_inv msgs st0 uri doc0 hinit hopen hpp hwf
  have hne : msgs ≠ [] := by
    intro h
    rw [h] at hml
    simp at hml
  obtain ⟨tr, htr⟩ := h4 hne
  refine ⟨h3, ?_⟩
  have hfire : fireTimer (msgs.foldl (fun s mm => (handleDidChange s mm).1) st0) uri =
      debounceCallback (msgs.foldl (fun s mm => (handleDidChange s mm).1) st0) uri
        tr.id tr.oldTree := by
    unfold fireTimer
    rw [htr]
  rw [hfire, debounceCallback_parseLog_open _ uri tr.id tr.oldTree doc1 hdoc1 h2, h3,
    hlast mlast tlast hml htl]

/-- Witness for C5: two rapid didChange notifications ("v1" then "v2x"); no
parse during the burst, and the fired timer parses exactly "v2x". -/
theorem debounce_burst_single_reparse_witness :
    ((handleDidChange (handleDidChange exStaleState exChangeMsg1).1 exChangeMsg2).1).parseLog
        = exStaleState.parseLog
    ∧ (fireTimer ((handleDidChange (handleDidChange exStaleState exChangeMsg1).1
        exChangeMsg2).1) "file:///a.go").parseLog
        = exStaleState.parseLog ++ [("file:///a.go", strB "v2x")] :=
  debounce_burst_single_reparse exStaleState "file:///a.go" exStaleDoc
    [exChangeMsg1, exChangeMsg2] rfl rfl rfl (by decide) exChangeMsg2 (strB "v2x")
    rfl rfl


/-! ## C6 — context windows: byte caps and contiguity -/

theorem slice_length (l : List Nat) (a b : Nat) :
    (slice l a b).length = min b l.length - a := by
  simp [slice]

theorem slice_eq_nil_of_le (l : List Nat) (a b : Nat) (h : b ≤ a) :
    slice l a b = [] := by
  unfold slice
  apply List.drop_eq_nil_of_le
  simp
  omega

theorem slice_append (l : List Nat) (a b c : Nat) (hab : a ≤ b) (hbc : b ≤ c) :
    slice l a b ++ slice l b c = slice l a c := by
  have hd : ∀ x y : Nat, slice l x y = (l.drop x).take (y - x) := by
    intro x y
    unfold slice
    exact List.drop_take y x l
  rw [hd a b, hd b c, hd a c]
  have hbb : l.drop b = (l.drop a).drop (b - a) := by
    rw [List.drop_drop]
    congr 1
    omega
  rw [hbb, ← List.take_add]
  congr 1
  omega

theorem lineStartByteOf_le (content : List Nat) : ∀ k, lineStartByteOf content k ≤ k := by
  intro k
  induction k with
  | zero => exact le_refl 0
  | succ k ihk =>
    unfold lineStartByteOf
    split
    · exact le_refl _
    · exact le_trans ihk (Nat.le_succ k)

theorem lineEndByteOf_ge_aux :
    ∀ n (content : List Nat) k, content.length - k ≤ n → k ≤ lineEndByteOf content k := by
  intro n
  induction n with
  | zero =>
    intro content k h
    rw [lineEndByteOf]
    split
    · next hk => omega
    · exact le_refl k
  | succ n ihn =>
    intro content k h
    rw [lineEndByteOf]
    split
    · next hk =>
      split
      · exact le_refl k
      · exact le_trans (Nat.le_succ k) (ihn content (k + 1) (by omega))
    · exact le_refl k

theorem lineEndByteOf_ge (content : List Nat) (k : Nat) : k ≤ lineEndByteOf content k :=
  lineEndByteOf_ge_aux content.length content k (by omega)

theorem extractCore_window_fields (content : List Nat) (root : STree) (spine : List STree)
    (c : Nat) (lang fn : String) :
    (extractCore content root spine c lang fn).CurrentLinePrefix =
        slice content (lineStartByteOf content c) c
    ∧ (extractCore content root spine c lang fn).Prefix =
        slice content (lineStartByteOf content c - prefixContextBytes)
          (lineStartByteOf content c)
    ∧ (extractCore content root spine c lang fn).Suffix.length ≤ suffixContextBytes := by
  have hls := lineStartByteOf_le content c
  have hle := lineEndByteOf_ge content c
  have h1 : ¬ c < lineStartByteOf content c := by omega
  have h2 : ¬ c > lineEndByteOf content c := by omega
  refine ⟨?_, ?_, ?_⟩
  · show (if (if (if c < lineStartByteOf content c then lineStartByteOf content c else c) >
          lineEndByteOf content c then lineEndByteOf content c
        else if c < lineStartByteOf content c then lineStartByteOf content c else c) >
          lineStartByteOf content c then
        slice content (lineStartByteOf content c)
          (if (if c < lineStartByteOf content c then lineStartByteOf content c else c) >
              lineEndByteOf content c then lineEndByteOf content c
            else if c < lineStartByteOf content c then lineStartByteOf content c else c)
      else []) = slice content (lineStartByteOf content c) c
    rw [if_neg h1, if_neg h2]
    by_cases hgt : c > lineStartByteOf content c
    · rw [if_pos hgt]
    · rw [if_neg hgt]
      rw [slice_eq_nil_of_le content (lineStartByteOf content c) c (by omega)]
  · show (if lineStartByteOf content c > lineStartByteOf content c - prefixContextBytes then
        slice content (lineStartByteOf content c - prefixContextBytes)
          (lineStartByteOf content c)
      else []) = slice content (lineStartByteOf content c - prefixContextBytes)
        (lineStartByteOf content c)
    by_cases hgt : lineStartByteOf content c > lineStartByteOf content c - prefixContextBytes
    · rw [if_pos hgt]
    · rw [if_neg hgt]
      rw [slice_eq_nil_of_le content _ _ (by omega)]
  · show (if (if (if lineEndByteOf content c < content.length ∧
            content.getD (lineEndByteOf content c) 0 = 10 then lineEndByteOf content c + 1
          else lineEndByteOf content c) + suffixContextBytes > content.length then content.length
        else (if lineEndByteOf content c < content.length ∧
            content.getD (lineEndByteOf content c) 0 = 10 then lineEndByteOf content c + 1
          else lineEndByteOf content c) + suffixContextBytes) >
          (if lineEndByteOf content c < content.length ∧
            content.getD (lineEndByteOf content c) 0 = 10 then lineEndByteOf content c + 1
          else lineEndByteOf content c) then
        slice content
          (if lineEndByteOf content c < content.length ∧
            content.getD (lineEndByteOf content c) 0 = 10 then lineEndByteOf content c + 1
          else lineEndByteOf content c)
          (if (if lineEndByteOf content c < content.length ∧
              content.getD (lineEndByteOf content c) 0 = 10 then lineEndByteOf content c + 1
            else lineEndByteOf content c) + suffixContextBytes > content.length then content.length
          else (if lineEndByteOf content c < content.length ∧
              content.getD (lineEndByteOf content c) 0 = 10 then lineEndByteOf content c + 1
            else lineEndByteOf content c) + suffixContextBytes)
      else []).length ≤ suffixContextBytes
    set sStart := if lineEndByteOf content c < content.length ∧
        content.getD (lineEndByteOf content c) 0 = 10 then lineEndByteOf content c + 1
      else lineEndByteOf content c with hss
    set sEnd := if sStart + suffixContextBytes > content.length then content.length
      else sStart + suffixContextBytes with hse
    by_cases hgt : sEnd > sStart
    · rw [if_pos hgt, slice_length]
      rw [hse]
      split <;> omega
    · rw [if_neg hgt]
      simp

theorem lineStartByteOf_no_nl (content : List Nat)
    (hnl : ∀ b ∈ content, b ≠ 10) : ∀ k, lineStartByteOf content k = 0 := by
  intro k
  induction k with
  | zero => rfl
  | succ k ihk =>
    have hcond : ¬ content.getD k 0 = 10 := by
      intro h
      rcases Nat.lt_or_ge k content.length with hk | hk
      · rw [List.getD_eq_getElem content 0 hk] at h
        exact hnl _ (List.getElem_mem hk) h
      · rw [List.getD_eq_default content 0 hk] at h
        exact absurd h (by decide)
    unfold lineStartByteOf
    rw [if_neg hcond]
    exact ihk

/-- C6 (amended): the Prefix window is capped at 2048 bytes and the Suffix
window at 256 bytes regardless of file size, and Prefix ++ CurrentLinePrefix
is exactly the contiguous block of document bytes ending at the (clamped)
cursor offset — a suffix of the document prefix before the cursor.  (The
current-line windows themselves carry no cap; see the counterexample.) -/
theorem extract_windows_bounded (content : List Nat) (root : STree) (spine : List STree)
    (off : Int) (lang fn : String) :
    ∀ ci, ExtractContext content (some root) spine off lang fn = .ok ci →
      ci.Prefix.length ≤ prefixContextBytes
      ∧ ci.Suffix.length ≤ suffixContextBytes
      ∧ ci.Prefix ++ ci.CurrentLinePrefix =
          slice content
            (lineStartByteOf content (clampOffset off content.length) - prefixContextBytes)
            (clampOffset off content.length)
      ∧ (ci.Prefix ++ ci.CurrentLinePrefix) <:+ content.take (clampOffset off content.length) := by
  intro ci hci
  rw [extract_ok] at hci
  injection hci with hci
  subst hci
  obtain ⟨hclp, hpre, hsuf⟩ := extractCore_window_fields content root spine
    (clampOffset off content.length) lang fn
  refine ⟨?_, hsuf, ?_, ?_⟩
  · rw [hpre, slice_length]
    have h1 : min (lineStartByteOf content (clampOffset off content.length)) content.length ≤
        lineStartByteOf content (clampOffset off content.length) := min_le_left _ _
    omega
  · rw [hpre, hclp]
    exact slice_append content _ _ _ (by omega)
      (lineStartByteOf_le content (clampOffset off content.length))
  · rw [hpre, hclp, slice_append content _ _ _ (by omega)
      (lineStartByteOf_le content (clampOffset off content.length))]
    unfold slice
    exact List.drop_suffix _ _

/-- Witness for C6 (amended) at a small concrete document. -/
theorem extract_windows_bounded_witness :
    (extractCore (strB "ab\ncd") (.node "source_file" 0 5 true []) []
        (clampOffset 4 (strB "ab\ncd").length) "go" "f").Prefix.length ≤ prefixContextBytes :=
  (extract_windows_bounded (strB "ab\ncd") (.node "source_file" 0 5 true []) [] 4 "go" "f"
    _ (extract_ok (strB "ab\ncd") (.node "source_file" 0 5 true []) [] 4 "go" "f")).1

/-- Counterexample to C6 as stated: a 2049-byte single-line document — the
current-line window (CurrentLinePrefix with the cursor at end of line) is 2049
bytes long, exceeding every configured byte cap of the extractor (2048 for the
prefix window, 256 for the suffix window): the current line has no cap. -/
theorem current_line_window_exceeds_caps :
    Except.map (fun ci => ci.CurrentLinePrefix.length)
        (ExtractContext exLongLine (some exLongRoot) [] 2049 "go" "f") = .ok 2049
    ∧ prefixContextBytes < 2049 ∧ suffixContextBytes < 2049 := by
  refine ⟨?_, by decide, by decide⟩
  rw [extract_ok]
  have hlen : exLongLine.length = 2049 := by
    unfold exLongLine
    exact List.length_replicate 2049 97
  have hcl : clampOffset 2049 exLongLine.length = 2049 := by
    unfold clampOffset
    rw [hlen]
    norm_num
    rfl
  obtain ⟨hclp, _, _⟩ := extractCore_window_fields exLongLine exLongRoot []
    (clampOffset 2049 exLongLine.length) "go" "f"
  have hls : lineStartByteOf exLongLine (clampOffset 2049 exLongLine.length) = 0 :=
    lineStartByteOf_no_nl exLongLine
      (fun b hb => by
        unfold exLongLine at hb
        rw [List.eq_of_mem_replicate hb]
        decide) _
  show Except.ok ((extractCore exLongLine exLongRoot []
      (clampOffset 2049 exLongLine.length) "go" "f").CurrentLinePrefix.length) = Except.ok 2049
  rw [hclp, hls, hcl, slice_length, hlen]
  norm_num


/-! ## C8 — import list: dedup, order, non-emptiness -/

theorem firstSeenDedup_nil : firstSeenDedup [] = [] := by
  unfold firstSeenDedup
  rfl

theorem firstSeenDedup_cons (a : List Nat) (as : List (List Nat)) :
    firstSeenDedup (a :: as) = a :: firstSeenDedup (as.filter (fun y => y ≠ a)) := by
  rw [firstSeenDedup]

theorem firstSeenDedup_sub_aux :
    ∀ fuel (l : List (List Nat)), l.length ≤ fuel → ∀ x ∈ firstSeenDedup l, x ∈ l := by
  intro fuel
  induction fuel with
  | zero =>
    intro l h x hx
    cases l with
    | nil => rw [firstSeenDedup_nil] at hx; exact absurd hx (by simp)
    | cons a as => simp at h
  | succ fuel ihf =>
    intro l h x hx
    cases l with
    | nil => rw [firstSeenDedup_nil] at hx; exact absurd hx (by simp)
    | cons a as =>
      rw [firstSeenDedup_cons] at hx
      rcases List.mem_cons.mp hx with hx | hx
      · exact hx ▸ List.mem_cons_self a as
      · have hlen : (as.filter (fun y => y ≠ a)).length ≤ fuel := by
          have := List.length_filter_le (fun y => decide (y ≠ a)) as
          simp at h
          omega
        have hmem := ihf _ hlen x hx
        exact List.mem_cons_of_mem a (List.mem_of_mem_filter hmem)

theorem firstSeenDedup_sub (l : List (List Nat)) : ∀ x ∈ firstSeenDedup l, x ∈ l :=
  firstSeenDedup_sub_aux l.length l (le_refl _)

theorem firstSeenDedup_nodup_aux :
    ∀ fuel (l : List (List Nat)), l.length ≤ fuel → (firstSeenDedup l).Nodup := by
  intro fuel
  induction fuel with
  | zero =>
    intro l h
    cases l with
    | nil => rw [firstSeenDedup_nil]; exact List.nodup_nil
    | cons a as => simp at h
  | succ fuel ihf =>
    intro l h
    cases l with
    | nil => rw [firstSeenDedup_nil]; exact List.nodup_nil
    | cons a as =>
      rw [firstSeenDedup_cons]
      have hlen : (as.filter (fun y => y ≠ a)).length ≤ fuel := by
        have := List.length_filter_le (fun y => decide (y ≠ a)) as
        simp at h
        omega
      refine List.Nodup.cons ?_ (ihf _ hlen)
      intro hmem
      have hin := firstSeenDedup_sub _ _ hmem
      have := List.of_mem_filter hin
      simp at this

theorem importLoop_eq (content : List Nat) (lang : String) (types : List String) :
    ∀ (nodes : List STree) (acc visited : List (List Nat)),
    importLoop content lang types nodes acc visited =
      acc ++ firstSeenDedup
        ((((nodes.filter (fun n => types.contains n.kind)).map
            (fun n => cleanImportText (getNodeText n content) lang)).filter
          (fun s => s ≠ [])).filter (fun s => !(visited.contains s))) := by
  intro nodes
  induction nodes with
  | nil =>
    intro acc visited
    unfold importLoop
    rw [List.filter_nil, List.map_nil, List.filter_nil, List.filter_nil, firstSeenDedup_nil]
    simp
  | cons n rest ih =>
    intro acc visited
    unfold importLoop
    by_cases hk : types.contains n.kind
    · rw [if_pos hk]
      have hk2 : n.kind ∈ types := by simpa using hk
      by_cases hcn : cleanImportText (getNodeText n content) lang = []
      · rw [if_neg (fun hand => hand.1 hcn)]
        rw [ih acc visited]
        congr 2
        simp [List.filter_cons, List.map_cons, hk2, hcn]
      · by_cases hv : visited.contains (cleanImportText (getNodeText n content) lang)
        · rw [if_neg (fun hand => hand.2 hv)]
          have hv2 : cleanImportText (getNodeText n content) lang ∈ visited := by
            simpa using hv
          rw [ih acc visited]
          congr 2
          simp [List.filter_cons, List.map_cons, hk2, hcn, hv2]
        · have hv2 : ¬ cleanImportText (getNodeText n content) lang ∈ visited := by
            simpa using hv
          rw [if_pos ⟨hcn, hv⟩]
          rw [ih (acc ++ [cleanImportText (getNodeText n content) lang])
            (cleanImportText (getNodeText n content) lang :: visited)]
          rw [List.append_assoc]
          congr 1
          have hcand :
              ((((n :: rest).filter (fun x => types.contains x.kind)).map
                  (fun x => cleanImportText (getNodeText x content) lang)).filter
                (fun s => s ≠ [])).filter (fun s => !(visited.contains s)) =
              cleanImportText (getNodeText n content) lang ::
                ((((rest.filter (fun x => types.contains x.kind)).map
                    (fun x => cleanImportText (getNodeText x content) lang)).filter
                  (fun s => s ≠ [])).filter (fun s => !(visited.contains s))) := by
            simp [List.filter_cons, List.map_cons, hk2, hcn, hv2]
          rw [hcand, firstSeenDedup_cons]
          show ([cleanImportText (getNodeText n content) lang] : List (List Nat)) ++ _ = _
          rw [List.singleton_append]
          congr 1
          simp only [List.filter_filter]
          congr 1
          apply List.filter_congr
          intro a ha
          by_cases hac : a = cleanImportText (getNodeText n content) lang <;>
            by_cases hav : a ∈ visited <;>
              simp [hac, hav, List.contains_cons, List.elem_eq_mem]
    · rw [if_neg hk]
      have hk2 : ¬ n.kind ∈ types := by simpa using hk
      rw [ih acc visited]
      congr 2
      simp [List.filter_cons, hk2]

theorem firstSeenDedup_nodup (l : List (List Nat)) : (firstSeenDedup l).Nodup :=
  firstSeenDedup_nodup_aux l.length l (le_refl _)

theorem extractImports_cases (content : List Nat) (lang : String) (root : STree) :
    extractImports content lang root =
      if (importNodeTypes lang).length > 0 then
        firstSeenDedup (importCandidates content lang root) else [] := by
  unfold extractImports
  dsimp only
  split
  · rw [importLoop_eq]
    simp [importCandidates]
  · rfl

/-- C8: for every text, tree, and language id, `ExtractContext`'s import list
is the first-seen de-duplication of the cleaned non-empty import candidates in
traversal order (so each cleaned string appears at most once and in order of
first appearance, with empty cleanings excluded), and a language with no
configured import-node kinds yields the empty list. -/
theorem extract_imports_spec (content : List Nat) (lang : String) (root : STree) :
    (importNodeTypes lang = [] → extractImports content lang root = []) ∧
    (importNodeTypes lang ≠ [] →
      extractImports content lang root =
        firstSeenDedup (importCandidates content lang root)) ∧
    (extractImports content lang root).Nodup ∧
    [] ∉ extractImports content lang root := by
  have hmain := extractImports_cases content lang root
  refine ⟨?_, ?_, ?_, ?_⟩
  · intro h
    rw [hmain, if_neg (by simp [h])]
  · intro h
    rw [hmain, if_pos (by simpa [List.length_pos] using h)]
  · rw [hmain]
    split
    · exact firstSeenDedup_nodup _
    · exact List.nodup_nil
  · rw [hmain]
    split
    · intro hmem
      have hin := firstSeenDedup_sub _ _ hmem
      have := List.of_mem_filter hin
      simp at this
    · simp

/-- Witness for C8: the one-import Go fixture — the import list equals the
deduplicated candidate list and contains no empty string. -/
theorem extract_imports_spec_witness :
    extractImports exImpContent "go" exImpRoot =
      firstSeenDedup (importCandidates exImpContent "go" exImpRoot) ∧
    [] ∉ extractImports exImpContent "go" exImpRoot :=
  ⟨(extract_imports_spec exImpContent "go" exImpRoot).2.1 (by decide),
   (extract_imports_spec exImpContent "go" exImpRoot).2.2.2⟩

/-! ## C4 — position translator against the reference scanner -/

theorem decodeRunesAux_congr :
    ∀ f1 f2 (l : List Nat), l.length ≤ f1 → l.length ≤ f2 →
      decodeRunesAux f1 l = decodeRunesAux f2 l := by
  intro f1
  induction f1 with
  | zero =>
    intro f2 l h1 h2
    cases l with
    | nil => cases f2 <;> rfl
    | cons b rest => simp at h1
  | succ f1 ihf =>
    intro f2 l h1 h2
    cases l with
    | nil => cases f2 <;> rfl
    | cons b rest =>
      cases f2 with
      | zero => simp at h2
      | succ f2 =>
        have hlen := decodeFirst_length b rest
        simp only [decodeRunesAux]
        rw [ihf f2 _ (by simp at h1; omega) (by simp at h2; omega)]

theorem decodeRunesAux_ge (fuel : Nat) (l : List Nat) (h : l.length ≤ fuel) :
    decodeRunesAux fuel l = decodeRunes l :=
  decodeRunesAux_congr fuel l.length l h (le_refl _)

theorem decodeRunes_cons (b : Nat) (rest : List Nat) :
    decodeRunes (b :: rest) =
      (decodeFirst b rest).1 :: decodeRunes (decodeFirst b rest).2 := by
  have hlen := decodeFirst_length b rest
  show decodeRunesAux (b :: rest).length (b :: rest) = _
  simp only [List.length_cons, decodeRunesAux]
  rw [decodeRunesAux_ge _ _ hlen]

theorem utf8EncodeRune_length (r : Nat) :
    (utf8EncodeRune r).length = utf8RuneLen r := by
  unfold utf8EncodeRune utf8RuneLen
  repeat' split
  all_goals rfl

theorem utf8Encode_nil : utf8Encode [] = [] := rfl

theorem utf8Encode_cons (r : Nat) (rs : List Nat) :
    utf8Encode (r :: rs) = utf8EncodeRune r ++ utf8Encode rs := by
  unfold utf8Encode
  rw [List.flatMap_cons]

theorem utf8Encode_length (rs : List Nat) :
    (utf8Encode rs).length = byteLenOf rs := by
  induction rs with
  | nil => rfl
  | cons r rest ih =>
    rw [utf8Encode_cons, List.length_append, utf8EncodeRune_length, ih]
    unfold byteLenOf
    simp

theorem utf8EncodeRune_ne_nil (r : Nat) : utf8EncodeRune r ≠ [] := by
  unfold utf8EncodeRune
  repeat' split
  all_goals simp

theorem utf8Encode_eq_nil (rs : List Nat) : utf8Encode rs = [] ↔ rs = [] := by
  cases rs with
  | nil => simp [utf8Encode_nil]
  | cons r rest =>
    rw [utf8Encode_cons]
    simp [utf8EncodeRune_ne_nil r]

theorem decodeFirst_enc1 (r : Nat) (h : r < 0x80) (l : List Nat) :
    decodeFirst r l = (r, l) := by
  unfold decodeFirst
  rw [if_pos h]

theorem decodeFirst_enc2 (r : Nat) (h1 : 0x80 ≤ r) (h2 : r < 0x800) (l : List Nat) :
    decodeFirst (0xC0 + r / 0x40) ((0x80 + r % 0x40) :: l) = (r, l) := by
  unfold decodeFirst
  rw [if_neg (by omega), if_pos (by omega)]
  dsimp only
  rw [if_pos ⟨by omega, by omega⟩]
  congr 1
  omega

theorem decodeFirst_enc3 (r : Nat) (h1 : 0x800 ≤ r) (h2 : r < 0x10000)
    (hsur : ¬ (0xD800 ≤ r ∧ r ≤ 0xDFFF)) (l : List Nat) :
    decodeFirst (0xE0 + r / 0x1000)
      ((0x80 + (r / 0x40) % 0x40) :: (0x80 + r % 0x40) :: l) = (r, l) := by
  unfold decodeFirst
  rw [if_neg (by omega), if_neg (by omega), if_pos (by omega)]
  dsimp only
  rw [if_pos ⟨by unfold accept3 isCont; omega, by omega, by omega⟩]
  congr 1
  omega

theorem decodeFirst_enc4 (r : Nat) (h1 : 0x10000 ≤ r) (h2 : r ≤ 0x10FFFF) (l : List Nat) :
    decodeFirst (0xF0 + r / 0x40000)
      ((0x80 + (r / 0x1000) % 0x40) :: (0x80 + (r / 0x40) % 0x40) :: (0x80 + r % 0x40) :: l) =
      (r, l) := by
  unfold decodeFirst
  rw [if_neg (by omega), if_neg (by omega), if_neg (by omega), if_pos (by omega)]
  dsimp only
  rw [if_pos ⟨by unfold accept4 isCont; omega, ⟨by omega, by omega⟩, by omega, by omega⟩]
  congr 1
  omega

theorem decodeRunes_encodeRune (r : Nat) (h : Scalar r) (l : List Nat) :
    decodeRunes (utf8EncodeRune r ++ l) = r :: decodeRunes l := by
  obtain ⟨hub, hsur⟩ := h
  unfold utf8EncodeRune
  by_cases c1 : r < 0x80
  · rw [if_pos c1, List.cons_append, List.nil_append, decodeRunes_cons,
      decodeFirst_enc1 r c1 l]
  · rw [if_neg c1]
    by_cases c2 : r < 0x800
    · rw [if_pos c2, List.cons_append, List.cons_append, List.nil_append,
        decodeRunes_cons, decodeFirst_enc2 r (by omega) c2 l]
    · rw [if_neg c2]
      by_cases c3 : r < 0x10000
      · rw [if_pos c3]
        simp only [List.cons_append, List.nil_append]
        rw [decodeRunes_cons, decodeFirst_enc3 r (by omega) c3 hsur l]
      · rw [if_neg c3]
        simp only [List.cons_append, List.nil_append]
        rw [decodeRunes_cons, decodeFirst_enc4 r (by omega) hub l]

theorem decodeRunes_encode (rs : List Nat) (h : ∀ r ∈ rs, Scalar r) :
    decodeRunes (utf8Encode rs) = rs := by
  induction rs with
  | nil => rfl
  | cons r rest ih =>
    rw [utf8Encode_cons, decodeRunes_encodeRune r (h r (List.mem_cons_self _ _)) _,
      ih (fun x hx => h x (List.mem_cons_of_mem _ hx))]

theorem splitSep_ne_nil (sep : Nat) (l : List Nat) : splitSep sep l ≠ [] := by
  cases l with
  | nil => simp [splitSep]
  | cons b rest =>
    unfold splitSep
    split
    · simp
    · split <;> simp

theorem splitSep_cons_sep (sep : Nat) (l : List Nat) :
    splitSep sep (sep :: l) = [] :: splitSep sep l := by
  simp [splitSep]

theorem splitSep_cons_ne (sep b : Nat) (hb : b ≠ sep) (l : List Nat)
    (seg : List Nat) (segs : List (List Nat)) (h : splitSep sep l = seg :: segs) :
    splitSep sep (b :: l) = (b :: seg) :: segs := by
  simp only [splitSep]
  rw [if_neg hb, h]

theorem splitSep_prepend (sep : Nat) (p : List Nat) (hp : ∀ b ∈ p, b ≠ sep) :
    ∀ (l : List Nat) (seg : List Nat) (segs : List (List Nat)),
      splitSep sep l = seg :: segs → splitSep sep (p ++ l) = (p ++ seg) :: segs := by
  induction p with
  | nil => intro l seg segs h; simpa using h
  | cons b bs ih =>
    intro l seg segs h
    rw [List.cons_append,
      splitSep_cons_ne sep b (hp b (List.mem_cons_self _ _)) _ _ _
        (ih (fun x hx => hp x (List.mem_cons_of_mem _ hx)) l seg segs h)]
    rfl

theorem mem_splitSep_sub (sep : Nat) :
    ∀ (l : List Nat), ∀ seg ∈ splitSep sep l, ∀ b ∈ seg, b ∈ l := by
  intro l
  induction l with
  | nil =>
    intro seg hseg b hb
    simp [splitSep] at hseg
    subst hseg
    simp at hb
  | cons a rest ih =>
    intro seg hseg b hb
    by_cases ha : a = sep
    · subst ha
      rw [splitSep_cons_sep] at hseg
      rcases List.mem_cons.mp hseg with h | h
      · subst h; simp at hb
      · exact List.mem_cons_of_mem _ (ih seg h b hb)
    · cases hrest : splitSep sep rest with
      | nil => exact absurd hrest (splitSep_ne_nil sep rest)
      | cons seg0 segs0 =>
        rw [splitSep_cons_ne sep a ha rest seg0 segs0 hrest] at hseg
        rcases List.mem_cons.mp hseg with h | h
        · subst h
          rcases List.mem_cons.mp hb with h | h
          · exact h ▸ List.mem_cons_self _ _
          · exact List.mem_cons_of_mem _
              (ih seg0 (hrest ▸ List.mem_cons_self _ _) b h)
        · exact List.mem_cons_of_mem _
            (ih seg (hrest ▸ List.mem_cons_of_mem _ h) b hb)

theorem small_byte_not_mem_encodeRune (c r : Nat) (hc : c < 0x80) (hr : r ≠ c) :
    c ∉ utf8EncodeRune r := by
  unfold utf8EncodeRune
  repeat' split
  all_goals simp
  all_goals omega

theorem small_byte_not_mem_encode (c : Nat) (hc : c < 0x80) (rs : List Nat)
    (hr : c ∉ rs) : c ∉ utf8Encode rs := by
  induction rs with
  | nil => simp [utf8Encode_nil]
  | cons r rest ih =>
    rw [utf8Encode_cons]
    intro hmem
    rcases List.mem_append.mp hmem with h | h
    · exact small_byte_not_mem_encodeRune c r hc
        (fun he => hr (he ▸ List.mem_cons_self _ _)) h
    · exact ih (fun hm => hr (List.mem_cons_of_mem _ hm)) h

theorem splitSep_encode (rs : List Nat) (h : ∀ r ∈ rs, Scalar r) :
    splitSep 10 (utf8Encode rs) = (splitSep 10 rs).map utf8Encode := by
  induction rs with
  | nil => simp [utf8Encode_nil, splitSep, utf8Encode_nil]
  | cons r rest ih =>
    have ihr := ih (fun x hx => h x (List.mem_cons_of_mem _ hx))
    by_cases hr : r = 10
    · subst hr
      rw [utf8Encode_cons, splitSep_cons_sep,
        show utf8EncodeRune 10 = [10] from rfl, List.singleton_append,
        splitSep_cons_sep, ihr, List.map_cons, utf8Encode_nil]
    · cases hrest : splitSep 10 rest with
      | nil => exact absurd hrest (splitSep_ne_nil 10 rest)
      | cons seg segs =>
        have henc : splitSep 10 (utf8Encode rest) = utf8Encode seg :: segs.map utf8Encode := by
          rw [ihr, hrest, List.map_cons]
        rw [utf8Encode_cons,
          splitSep_prepend 10 (utf8EncodeRune r) ?hb (utf8Encode rest) _ _ henc,
          splitSep_cons_ne 10 r hr rest seg segs hrest, List.map_cons, utf8Encode_cons]
        case hb =>
          intro b hbmem
          intro hb10
          subst hb10
          exact small_byte_not_mem_encodeRune 10 r (by omega) hr hbmem

theorem dropCR_of_no13 (l : List Nat) (h : 13 ∉ l) : dropCR l = l := by
  unfold dropCR
  rw [if_neg]
  intro hlast
  exact h (List.mem_of_mem_getLast? hlast)

theorem stripLastEmpty_map_encode (T : List (List Nat)) :
    stripLastEmpty (T.map utf8Encode) = (stripLastEmpty T).map utf8Encode := by
  unfold stripLastEmpty
  rw [List.getLast?_map]
  cases hlast : T.getLast? with
  | none => rw [if_neg (by simp), if_neg (by simp)]
  | some seg =>
    simp only [Option.map_some']
    by_cases hseg : seg = []
    · subst hseg
      rw [if_pos rfl, if_pos (by simp [utf8Encode_nil]), List.map_dropLast]
    · rw [if_neg (by simp [utf8Encode_eq_nil, hseg]), if_neg (by simp [hseg])]

theorem mem_stripLastEmpty (L : List (List Nat)) :
    ∀ x ∈ stripLastEmpty L, x ∈ L := by
  intro x hx
  unfold stripLastEmpty at hx
  split at hx
  · exact List.dropLast_sublist _ |>.mem hx
  · exact hx

theorem scanSegments_encode (rs : List Nat) (h : ∀ r ∈ rs, Scalar r) :
    scanSegments (utf8Encode rs) = (stripLastEmpty (splitSep 10 rs)).map utf8Encode := by
  unfold scanSegments
  rw [splitSep_encode rs h, stripLastEmpty_map_encode]

theorem dropCR_encode (rs : List Nat) (seg : List Nat) (hcr : 13 ∉ rs)
    (hsub : seg ∈ splitSep 10 rs) : dropCR (utf8Encode seg) = utf8Encode seg := by
  apply dropCR_of_no13
  apply small_byte_not_mem_encode 13 (by omega)
  intro hmem
  exact hcr (mem_splitSep_sub 10 rs seg hsub 13 hmem)

theorem utf16Size_pos (r : Nat) : 0 < utf16Size r := by
  unfold utf16Size
  split <;> omega

theorem specColOffset_zero (l : List Nat) : specColOffset l 0 = 0 := by
  cases l with
  | nil => rfl
  | cons r rest =>
    unfold specColOffset
    rw [if_neg]
    have := utf16Size_pos r
    omega

theorem specColOffset_clamp (l : List Nat) :
    ∀ ch, utf16Len l ≤ ch → specColOffset l ch = byteLenOf l := by
  induction l with
  | nil => intro ch _; rfl
  | cons r rest ih =>
    intro ch hch
    have hlen : utf16Len (r :: rest) = utf16Size r + utf16Len rest := by
      unfold utf16Len
      simp
    unfold specColOffset
    rw [if_pos (by omega), ih (ch - utf16Size r) (by omega)]
    unfold byteLenOf
    simp

theorem runeScan_spec (l : List Nat) :
    ∀ target c16 bytes, c16 ≤ target →
      runeScan l target c16 bytes = bytes + specColOffset l (target - c16) := by
  induction l with
  | nil => intro target c16 bytes _; simp [runeScan, specColOffset]
  | cons r rest ih =>
    intro target c16 bytes hle
    unfold runeScan
    by_cases heq : c16 ≥ target
    · rw [if_pos heq]
      have h0 : target - c16 = 0 := by omega
      rw [h0, specColOffset_zero]
      omega
    · rw [if_neg heq]
      by_cases hover : c16 + utf16Size r > target
      · rw [if_pos hover]
        conv_rhs => unfold specColOffset
        rw [if_neg (by omega)]
        omega
      · rw [if_neg hover, ih target (c16 + utf16Size r) (bytes + utf8RuneLen r) (by omega)]
        conv_rhs => unfold specColOffset
        rw [if_pos (show utf16Size r ≤ target - c16 by omega),
          show target - (c16 + utf16Size r) = target - c16 - utf16Size r by omega]
        exact Nat.add_assoc _ _ _

theorem sumBytes_single (l : List Nat) : sumBytes [l] = byteLenOf l := by
  simp [sumBytes, byteLenOf]

theorem sumBytes_cons (l : List Nat) (T : List (List Nat)) (hT : T ≠ []) :
    sumBytes (l :: T) = byteLenOf l + 1 + sumBytes T := by
  unfold sumBytes
  cases T with
  | nil => contradiction
  | cons l2 T' => simp; omega

theorem sumBytes_cons_rune (r : Nat) (seg : List Nat) (segs : List (List Nat)) :
    sumBytes ((r :: seg) :: segs) = utf8RuneLen r + sumBytes (seg :: segs) := by
  unfold sumBytes byteLenOf
  simp
  omega

theorem utf8Encode_length_splitSep (rs : List Nat) :
    (utf8Encode rs).length = sumBytes (splitSep 10 rs) := by
  induction rs with
  | nil => simp [utf8Encode_nil, splitSep, sumBytes, byteLenOf]
  | cons r rest ih =>
    rw [utf8Encode_cons, List.length_append, utf8EncodeRune_length, ih]
    by_cases hr : r = 10
    · subst hr
      rw [splitSep_cons_sep]
      rw [sumBytes_cons [] _ (splitSep_ne_nil 10 rest)]
      show 1 + sumBytes (splitSep 10 rest) = byteLenOf [] + 1 + sumBytes (splitSep 10 rest)
      unfold byteLenOf
      simp
    · cases hrest : splitSep 10 rest with
      | nil => exact absurd hrest (splitSep_ne_nil 10 rest)
      | cons seg segs =>
        rw [splitSep_cons_ne 10 r hr rest seg segs hrest, sumBytes_cons_rune]

theorem stripLastEmpty_cons (l : List Nat) (T : List (List Nat)) (hT : T ≠ []) :
    stripLastEmpty (l :: T) = l :: stripLastEmpty T := by
  cases T with
  | nil => contradiction
  | cons l2 T' =>
    unfold stripLastEmpty
    rw [List.getLast?_cons_cons]
    split
    · rfl
    · rfl

theorem ptoLoop_at_line (clen : Nat) (c : Int) (ch off : Nat) (l : List Nat)
    (hs : ∀ r ∈ l, Scalar r) (h13 : 13 ∉ l) (hbl : byteLenOf l < maxScanTokenSize)
    (S : List (List Nat)) :
    ptoLoop clen c (ch : Int) (utf8Encode l :: S) c off =
      .ok (off + specColOffset l ch) := by
  have hdrop : dropCR (utf8Encode l) = utf8Encode l :=
    dropCR_of_no13 _ (small_byte_not_mem_encode 13 (by omega) l h13)
  simp only [ptoLoop]
  rw [if_neg (show ¬ maxScanTokenSize ≤ (utf8Encode l).length by
    rw [utf8Encode_length]; omega)]
  rw [hdrop]
  rw [if_pos trivial, if_neg (by omega)]
  rw [decodeRunes_encode l hs]
  by_cases hch : ((ch : Int) > (utf16Len l : Int))
  · rw [if_pos hch, utf8Encode_length,
      specColOffset_clamp l ch (by exact_mod_cast le_of_lt hch)]
  · rw [if_neg hch]
    have htn : ((ch : Int)).toNat = ch := rfl
    rw [htn, runeScan_spec l ch 0 0 (Nat.zero_le ch), Nat.zero_add, Nat.sub_zero]

theorem ptoLoop_spec :
    ∀ (T : List (List Nat)), T ≠ [] →
      (∀ l ∈ T, ∀ r ∈ l, Scalar r) →
      (∀ l ∈ T, 13 ∉ l) →
      (∀ l ∈ T, byteLenOf l < maxScanTokenSize) →
      ∀ (n ch off clen : Nat) (c : Int),
        clen = off + sumBytes T →
        ptoLoop clen (c + (n : Int)) (ch : Int)
            ((stripLastEmpty T).map utf8Encode) c off =
          .ok (off + specRefLoop T n ch) := by
  intro T
  induction T with
  | nil => intro h; exact absurd rfl h
  | cons l T' ih =>
    intro _ hscal h13T hblT n ch off clen c hclen
    have hscall : ∀ r ∈ l, Scalar r := hscal l (List.mem_cons_self _ _)
    have h13l : 13 ∉ l := h13T l (List.mem_cons_self _ _)
    have hbll : byteLenOf l < maxScanTokenSize := hblT l (List.mem_cons_self _ _)
    have hdropl : dropCR (utf8Encode l) = utf8Encode l :=
      dropCR_of_no13 _ (small_byte_not_mem_encode 13 (by omega) l h13l)
    have hbigl : ¬ maxScanTokenSize ≤ (utf8Encode l).length := by
      rw [utf8Encode_length]; omega
    cases T' with
    | nil =>
      rw [sumBytes_single] at hclen
      by_cases hl : l = []
      · subst hl
        show ptoLoop clen (c + (n : Int)) (ch : Int) [] c off = _
        simp only [ptoLoop]
        rw [if_pos (by omega)]
        cases n with
        | zero =>
          show Except.ok clen = Except.ok (off + specColOffset [] ch)
          rw [show specColOffset [] ch = 0 from rfl]
          rw [hclen]
          rfl
        | succ m =>
          show Except.ok clen = Except.ok (off + byteLenOf [])
          rw [hclen]
      · have hstrip : stripLastEmpty [l] = [l] := by
          unfold stripLastEmpty
          rw [if_neg (by simp [hl])]
        rw [hstrip]
        cases n with
        | zero =>
          simp only [Nat.cast_zero, add_zero, List.map_cons, List.map_nil]
          rw [ptoLoop_at_line clen c ch off l hscall h13l hbll []]
          rfl
        | succ m =>
          simp only [List.map_cons, List.map_nil, ptoLoop]
          rw [if_neg hbigl, hdropl]
          rw [if_neg (by omega)]
          rw [if_pos (by omega)]
          show Except.ok clen = Except.ok (off + specRefLoop [l] (m + 1) ch)
          rw [show specRefLoop [l] (m + 1) ch = byteLenOf l from rfl, hclen]
    | cons l2 T'' =>
      have hne : (l2 :: T'') ≠ ([] : List (List Nat)) := by simp
      rw [stripLastEmpty_cons l _ hne, sumBytes_cons l _ hne] at *
      cases n with
      | zero =>
        simp only [Nat.cast_zero, add_zero, List.map_cons]
        rw [ptoLoop_at_line clen c ch off l hscall h13l hbll _]
        rfl
      | succ m =>
        simp only [List.map_cons, ptoLoop]
        rw [if_neg hbigl, hdropl]
        rw [if_neg (by omega)]
        rw [utf8Encode_length]
        rw [show (c + ((m + 1 : Nat) : Int)) = (c + 1) + (m : Int) by push_cast; ring]
        rw [ih hne (fun x hx => hscal x (List.mem_cons_of_mem _ hx))
          (fun x hx => h13T x (List.mem_cons_of_mem _ hx))
          (fun x hx => hblT x (List.mem_cons_of_mem _ hx)) m ch
          (off + byteLenOf l + 1) clen (c + 1) (by rw [hclen]; ring)]
        show Except.ok _ = Except.ok (off + specRefLoop (l :: l2 :: T'') (m + 1) ch)
        rw [show specRefLoop (l :: l2 :: T'') (m + 1) ch =
          byteLenOf l + 1 + specRefLoop (l2 :: T'') m ch by simp [specRefLoop]]
        congr 1
        ring

theorem ptoLoop_error (clen : Nat) (tLine tChar : Int) :
    ∀ (S : List (List Nat)) (cur : Int) (off : Nat) (e : String),
      cur ≤ tLine →
      ptoLoop clen tLine tChar S cur off = .error e →
      tChar < 0 ∨ ∃ seg ∈ S, maxScanTokenSize ≤ seg.length := by
  intro S
  induction S with
  | nil =>
    intro cur off e hle h
    simp only [ptoLoop] at h
    rw [if_pos hle] at h
    exact absurd h (by simp)
  | cons sg rest ih =>
    intro cur off e hle h
    simp only [ptoLoop] at h
    by_cases hbig : maxScanTokenSize ≤ sg.length
    · exact Or.inr ⟨sg, List.mem_cons_self _ _, hbig⟩
    · rw [if_neg hbig] at h
      by_cases hc : cur = tLine
      · rw [if_pos hc] at h
        by_cases hneg : tChar < 0
        · exact Or.inl hneg
        · rw [if_neg hneg] at h
          split at h <;> simp at h
      · rw [if_neg hc] at h
        rcases ih (cur + 1) _ e (by omega) h with h1 | ⟨seg, hm, hlen⟩
        · exact Or.inl h1
        · exact Or.inr ⟨seg, List.mem_cons_of_mem _ hm, hlen⟩

/-- C4: for a document whose code points are Unicode scalar values containing
no carriage return, and all of whose newline-delimited lines are shorter than
`bufio.MaxScanTokenSize` (64 KiB), `PositionToOffset` agrees with the
spec-modelled reference UTF-16-aware scanner at every zero-based
(line, UTF-16 character) pair — including the column clamp to line end and the
line clamp to document end; and on any such document an error return implies a
negative line, a negative character, or a line of at least 64 KiB (the
`bufio.Scanner` `ErrTooLong` failure surfaced as "error scanning content").
(The original all-documents claim is refuted by
`position_to_offset_crlf_counterexample`: a document with a CRLF line break
makes the scanner's byte accounting lose the stripped `\r` byte; documents
with a 64 KiB line fail scanning outright.) -/
theorem position_to_offset_matches_reference (rs : List Nat)
    (hs : ∀ r ∈ rs, Scalar r) (hcr : 13 ∉ rs)
    (hlen : ∀ seg ∈ splitSep 10 rs, byteLenOf seg < maxScanTokenSize) :
    (∀ line ch : Nat,
      PositionToOffset (utf8Encode rs) ⟨(line : Int), (ch : Int)⟩ =
        .ok (specRefOffset rs line ch)) ∧
    (∀ (pos : Position) (e : String),
      PositionToOffset (utf8Encode rs) pos = .error e →
        pos.line < 0 ∨ pos.character < 0 ∨
          ∃ seg ∈ splitSep 10 rs, maxScanTokenSize ≤ byteLenOf seg) := by
  constructor
  · intro line ch
    unfold PositionToOffset
    rw [if_neg (by simp)]
    rw [scanSegments_encode rs hs]
    have h := ptoLoop_spec (splitSep 10 rs) (splitSep_ne_nil 10 rs)
      (fun l hl r hr => hs r (mem_splitSep_sub 10 rs l hl r hr))
      (fun l hl h13 => hcr (mem_splitSep_sub 10 rs l hl 13 h13))
      hlen line ch 0 ((utf8Encode rs).length) 0
      (by rw [Nat.zero_add, utf8Encode_length_splitSep])
    rw [zero_add] at h
    rw [Nat.zero_add] at h
    exact h
  · intro pos e h
    unfold PositionToOffset at h
    by_cases hl : pos.line < 0
    · exact Or.inl hl
    · rw [if_neg hl] at h
      rw [scanSegments_encode rs hs] at h
      rcases ptoLoop_error _ _ _ _ 0 0 e (by omega) h with h1 | ⟨seg, hm, hbig⟩
      · exact Or.inr (Or.inl h1)
      · rcases List.mem_map.mp hm with ⟨seg0, hseg0, rfl⟩
        rw [utf8Encode_length] at hbig
        exact Or.inr (Or.inr ⟨seg0, mem_stripLastEmpty _ seg0 hseg0, hbig⟩)

/-- Witness for C4: the document `hi\n𝈀` (with a non-BMP rune of UTF-16 length
two on line 1, every line far below the 64 KiB token limit): the translator and
the reference scanner agree at line 1, character 2. -/
theorem position_to_offset_matches_reference_witness :
    (∀ r ∈ [104, 105, 10, 119296], Scalar r) ∧
    (13 : Nat) ∉ [104, 105, 10, 119296] ∧
    (∀ seg ∈ splitSep 10 [104, 105, 10, 119296], byteLenOf seg < maxScanTokenSize) ∧
    PositionToOffset (utf8Encode [104, 105, 10, 119296]) ⟨1, 2⟩ =
      .ok (specRefOffset [104, 105, 10, 119296] 1 2) :=
  ⟨by decide, by decide, by decide,
    (position_to_offset_matches_reference [104, 105, 10, 119296]
      (by decide) (by decide) (by decide)).1 1 2⟩

/-- Counterexample for the unrestricted C4 claim: on the CRLF document
`a\r\nb` — all of whose code points are scalar values — the translator maps
(line 1, character 0) to byte offset 2 (the scanner's `byteOffset` advance of
`len(line)+1` loses the stripped `\r`), while the reference scanner yields the
true offset 3 of the `b` code point. -/
theorem position_to_offset_crlf_counterexample :
    (∀ r ∈ [97, 13, 10, 98], Scalar r) ∧
    PositionToOffset (utf8Encode [97, 13, 10, 98]) ⟨1, 0⟩ = .ok 2 ∧
    specRefOffset [97, 13, 10, 98] 1 0 = 3 :=
  ⟨by decide, rfl, rfl⟩

end Grasshopper
